import Mathlib

/-!
Console logger (piolibs/console): shallow embedding and verified properties.

The development embeds `src/console/Console.{h,cpp}` (namespace `console`)
and the legacy `src/Console.{h,cpp}` (namespace `app`).

Conventions of the embedding

* A `char` array is a `List Char`; the terminator is `NUL`.  `strlen` and
  `cstr` read a buffer the way the C library does: up to the first `NUL`.
* The text a `printf`-family call would produce from `fmt` and its arguments
  when given unbounded room is called the *rendered* text.  `vsnprintf` takes
  that text and applies the size bound of the C standard: with bound `n > 0`
  it stores the first `n - 1` rendered characters followed by `NUL`; with
  bound `0` it stores nothing.
* A `HardwareSerial` object is identified by a number (`Dev`).  Every call
  the logger makes on a device is appended to the field `calls`, so that the
  effect on the transport is part of the state.
* `size_t` arithmetic wraps modulo `SIZE_MOD`.
-/

set_option maxRecDepth 8000

/-! ## Characters, C strings -/

/-- The string terminator, the character with code 0. -/
def NUL : Char := Char.ofNat 0

/-- C library `strlen`: number of characters before the first `NUL`. -/
def strlen : List Char → Nat
  | [] => 0
  | c :: cs => if c = NUL then 0 else strlen cs + 1

/-- The C string held in a character array: the characters before the first `NUL`. -/
def cstr : List Char → List Char
  | [] => []
  | c :: cs => if c = NUL then [] else c :: cstr cs

/-- Store the characters `w` into the array `m` starting at index `off`. -/
def writeAt (m : List Char) (off : Nat) (w : List Char) : List Char :=
  m.take off ++ w ++ m.drop (off + w.length)

/-- C library `vsnprintf(m + off, n, fmt, args)`, where `rendered` is the
complete conversion of `fmt` and `args`: at most `n - 1` characters are
stored, followed by `NUL`; nothing is stored when `n` is 0. -/
def vsnprintf (m : List Char) (off n : Nat) (rendered : List Char) : List Char :=
  if n = 0 then m else writeAt m off (rendered.take (n - 1) ++ [NUL])

/-- Modulus of `size_t` arithmetic, for a 32-bit `size_t`.  The results
below only use that it is larger than the buffer size. -/
def SIZE_MOD : Nat := 4294967296

/-- Subtraction on `size_t`: wraps around modulo `SIZE_MOD`. -/
def sizeSub (a b : Nat) : Nat := (a % SIZE_MOD + SIZE_MOD - b % SIZE_MOD) % SIZE_MOD

/-! ## The transport -/

/-- Identity of a `HardwareSerial` object. -/
abbrev Dev := Nat

/-- The global `Serial` object of the Arduino core. -/
def Serial : Dev := 0

/-- The member functions of `HardwareSerial` the logger calls. -/
inductive SerialCall where
  | begin (baud : Nat)
  | print (s : List Char)
  | println (s : List Char)
  | flush
  deriving DecidableEq, Repr

namespace console

/-! ## The current logger, `src/console/Console.cpp` -/

/-- `sizeof(mBuffer)` for `char mBuffer[96]`. -/
def BUFFER_SIZE : Nat := 96

/-- `SERIAL_BAUD_RATE`, the default of `Console.cpp`. -/
def SERIAL_BAUD_RATE : Nat := 115200

/-- The data members of `console::Console`, and the record `calls` of every
call made on a serial device, oldest first. -/
structure Console where
  serial : Option Dev
  baudrate : Nat
  mBuffer : List Char
  calls : List (Dev × SerialCall)
  deriving DecidableEq, Repr

/-- Record the call `c` on the device `d`. -/
def Console.call (s : Console) (d : Dev) (c : SerialCall) : Console :=
  { s with calls := s.calls ++ [(d, c)] }

/-- The constructor `Console::Console()`, for a build whose
`SERIAL_BAUD_RATE` is `rate`. -/
def Console.construct (rate : Nat) : Console :=
  let s : Console :=
    { serial := some Serial, baudrate := rate,
      mBuffer := List.replicate BUFFER_SIZE NUL, calls := [] }
  match s.serial with
  | some d => s.call d (SerialCall.begin s.baudrate)
  | none => s

/-- Member `Console::setSerial(HardwareSerial &serial)`. -/
def Console.setSerial (s : Console) (d : Dev) : Console :=
  let s1 := { s with serial := some d }
  match s1.serial with
  | some d1 => s1.call d1 (SerialCall.begin s1.baudrate)
  | none => s1

/-- Member `Console::setBaudRate(unsigned long baudrate)`. -/
def Console.setBaudRate (s : Console) (baudrate : Nat) : Console :=
  let s1 := { s with baudrate := baudrate }
  match s1.serial with
  | some d => s1.call d (SerialCall.begin s1.baudrate)
  | none => s1

/-- Member `Console::flush(const char *prefix)`; `pre` is the C string passed. -/
def Console.flush (s : Console) (pre : List Char) : Console :=
  match s.serial with
  | none => s
  | some d =>
    if strlen s.mBuffer > 0 then
      let s1 := s.call d (SerialCall.print pre)
      let s2 := s1.call d (SerialCall.println (cstr s1.mBuffer))
      let s3 := s2.call d SerialCall.flush
      { s3 with mBuffer := s3.mBuffer.set 0 NUL }
    else s

/-- Member `Console::log(const char *fmt, ...)`. -/
def Console.log (s : Console) (rendered : List Char) : Console :=
  match s.serial with
  | none => s
  | some _ =>
    let s1 := { s with mBuffer := vsnprintf s.mBuffer 0 (sizeSub BUFFER_SIZE 1) rendered }
    s1.flush []

/-- Member `Console::format(const char *fmt, ...)`. -/
def Console.format (s : Console) (rendered : List Char) : Console :=
  match s.serial with
  | none => s
  | some _ =>
    let length := strlen s.mBuffer
    let remaining := sizeSub (sizeSub BUFFER_SIZE length) 1
    { s with mBuffer := vsnprintf s.mBuffer length remaining rendered }

/-- Member `Console::vformat(const char *fmt, va_list args)`. -/
def Console.vformat (s : Console) (rendered : List Char) : Console :=
  match s.serial with
  | none => s
  | some _ =>
    let length := strlen s.mBuffer
    let remaining := sizeSub (sizeSub BUFFER_SIZE length) 1
    { s with mBuffer := vsnprintf s.mBuffer length remaining rendered }

/-- Member `Console::vlog(const char *fmt, va_list args)`. -/
def Console.vlog (s : Console) (rendered : List Char) : Console :=
  (s.vformat rendered).flush []

/-- Free function `console::log`, applied to the singleton `s`. -/
def log (s : Console) (rendered : List Char) : Console :=
  s.vlog rendered

/-- Free function `console::format`, applied to the singleton `s`. -/
def format (s : Console) (rendered : List Char) : Console :=
  s.vformat rendered

/-- Free function `console::flush`, applied to the singleton `s`. -/
def flush (s : Console) (pre : List Char) : Console :=
  s.flush pre

/-- The sequence `mBuffer[0] = 0`, which the description of `log` calls
clearing the buffer. -/
def Console.clear (s : Console) : Console :=
  { s with mBuffer := s.mBuffer.set 0 NUL }

/-- The description of `log`: clear the buffer, append the rendered text,
flush with an empty prefix. -/
def Console.logSpec (s : Console) (rendered : List Char) : Console :=
  ((s.clear).format rendered).flush []

/-- One call on the logger; `r` is the rendered text of the format and
arguments passed, `pre` the prefix passed. -/
inductive Op where
  | setSerial (d : Dev)
  | setBaudRate (v : Nat)
  | format (r : List Char)
  | vformat (r : List Char)
  | flush (pre : List Char)
  | log (r : List Char)
  | vlog (r : List Char)
  deriving DecidableEq, Repr

/-- Effect of one call. -/
def Console.step (s : Console) : Op → Console
  | Op.setSerial d => s.setSerial d
  | Op.setBaudRate v => s.setBaudRate v
  | Op.format r => s.format r
  | Op.vformat r => s.vformat r
  | Op.flush pre => s.flush pre
  | Op.log r => s.log r
  | Op.vlog r => s.vlog r

/-- Effect of a sequence of calls, first call first. -/
def Console.run (s : Console) : List Op → Console
  | [] => s
  | o :: ops => (s.step o).run ops

/-- The states the singleton can be in: constructed, then any calls. -/
def Reachable (s : Console) : Prop :=
  ∃ rate ops, (Console.construct rate).run ops = s

/-- The calls that append to, flush or log through the buffer (all but the
two configuration calls). -/
def Op.isOutput : Op → Bool
  | Op.setSerial _ => false
  | Op.setBaudRate _ => false
  | _ => true

/-- The calls that append: `format` and `vformat`. -/
def Op.isAppend : Op → Bool
  | Op.format _ => true
  | Op.vformat _ => true
  | _ => false

/-- Rendered text of the format and arguments a call passes (empty for the
calls that take none). -/
def Op.rendered : Op → List Char
  | Op.format r => r
  | Op.vformat r => r
  | Op.log r => r
  | Op.vlog r => r
  | _ => []

/-- Concatenation, in call order, of the rendered texts of a sequence of calls. -/
def renderedConcat : List Op → List Char
  | [] => []
  | o :: ops => o.rendered ++ renderedConcat ops

/-- The representation invariant of the logger: the buffer is the 96-byte
array, its C string has at most 94 characters, and a device is set. -/
def Console.Inv (s : Console) : Prop :=
  s.mBuffer.length = BUFFER_SIZE ∧ strlen s.mBuffer ≤ 94 ∧ s.serial ≠ none

end console

/-! ## What reaches the wire -/

/-- Whether a call transmits (everything but `begin`). -/
def SerialCall.isWrite : SerialCall → Bool
  | SerialCall.begin _ => false
  | _ => true

/-- Characters a call puts on the wire; `nl` is the line terminator that
`println` adds. -/
def SerialCall.text (nl : List Char) : SerialCall → List Char
  | SerialCall.print s => s
  | SerialCall.println s => s ++ nl
  | _ => []

/-- Characters put on the wire of device `d` by a record of calls. -/
def wire (nl : List Char) (d : Dev) : List (Dev × SerialCall) → List Char
  | [] => []
  | (d1, c) :: cs => (if d1 = d then c.text nl else []) ++ wire nl d cs

/-- Arguments of the `println` calls in a record of calls. -/
def printlns : List (Dev × SerialCall) → List (List Char)
  | [] => []
  | (_, SerialCall.println s) :: cs => s :: printlns cs
  | _ :: cs => printlns cs

/-- The rate of the last `begin` made on device `d`, if any. -/
def lastBegin (d : Dev) : List (Dev × SerialCall) → Option Nat
  | [] => none
  | (d1, c) :: cs =>
    match lastBegin d cs with
    | some r => some r
    | none =>
      match c with
      | SerialCall.begin r => if d1 = d then some r else none
      | _ => none

/-- The device that is set was last initialised at the configured rate. -/
def console.Console.AtRate (s : console.Console) : Prop :=
  ∃ c, s.serial = some c ∧ lastBegin c s.calls = some s.baudrate

/-! ## The legacy logger, `src/Console.cpp` -/

namespace app

/-- The data members of `app::Console`, and the record of serial calls. -/
structure Console where
  serial : Option Dev
  baudrate : Nat
  mBuffer : List Char
  calls : List (Dev × SerialCall)
  deriving DecidableEq, Repr

/-- Record the call `c` on the device `d`. -/
def Console.call (s : Console) (d : Dev) (c : SerialCall) : Console :=
  { s with calls := s.calls ++ [(d, c)] }

/-- The constructor `app::Console::Console()`. -/
def Console.construct (rate : Nat) : Console :=
  let s : Console :=
    { serial := some Serial, baudrate := rate,
      mBuffer := List.replicate 96 NUL, calls := [] }
  match s.serial with
  | some d => s.call d (SerialCall.begin s.baudrate)
  | none => s

/-- Member `app::Console::setSerial`. -/
def Console.setSerial (s : Console) (d : Dev) : Console :=
  let s1 := { s with serial := some d }
  match s1.serial with
  | some d1 => s1.call d1 (SerialCall.begin s1.baudrate)
  | none => s1

/-- Member `app::Console::setBaudRate`. -/
def Console.setBaudRate (s : Console) (baudrate : Nat) : Console :=
  let s1 := { s with baudrate := baudrate }
  match s1.serial with
  | some d => s1.call d (SerialCall.begin s1.baudrate)
  | none => s1

/-- Member `app::Console::format`. -/
def Console.format (s : Console) (rendered : List Char) : Console :=
  match s.serial with
  | none => s
  | some _ =>
    let currentLen := strlen s.mBuffer
    let remaining := sizeSub (sizeSub 96 currentLen) 1
    { s with mBuffer := vsnprintf s.mBuffer currentLen remaining rendered }

/-- Member `app::Console::flush`. -/
def Console.flush (s : Console) : Console :=
  match s.serial with
  | none => s
  | some d =>
    if strlen s.mBuffer > 0 then
      let s1 := s.call d (SerialCall.println (cstr s.mBuffer))
      { s1 with mBuffer := s1.mBuffer.set 0 NUL }
    else s

/-- Member `app::Console::log`. -/
def Console.log (s : Console) (rendered : List Char) : Console :=
  match s.serial with
  | none => s
  | some _ =>
    let s1 := { s with mBuffer := vsnprintf s.mBuffer 0 (sizeSub 96 1) rendered }
    s1.flush

end app

/-! ## The logging macros of `src/console/Console.h` -/

/-- `LOG_LEVEL_VERBOSE`. -/
def LOG_LEVEL_VERBOSE : Int := 5
/-- `LOG_LEVEL_DEBUG`. -/
def LOG_LEVEL_DEBUG : Int := 4
/-- `LOG_LEVEL_INFO`. -/
def LOG_LEVEL_INFO : Int := 3
/-- `LOG_LEVEL_WARNING`. -/
def LOG_LEVEL_WARNING : Int := 2
/-- `LOG_LEVEL_ERROR`. -/
def LOG_LEVEL_ERROR : Int := 1
/-- `LOG_LEVEL_NONE`. -/
def LOG_LEVEL_NONE : Int := 0

/-- The compile-time configuration of a translation unit: the value of
`LOG_LEVEL`, and the string literal `LOG_MODULE` is defined as (`none` when
it is left empty, as the header does by default). -/
structure Build where
  LOG_LEVEL : Int
  LOG_MODULE : Option (List Char)
  deriving DecidableEq, Repr

/-- The configuration when neither `LOG_LEVEL` nor `LOG_MODULE` is defined
by the user. -/
def Build.default : Build := { LOG_LEVEL := LOG_LEVEL_INFO, LOG_MODULE := none }

/-- The five severities that have macros. -/
inductive Severity where
  | E | W | I | D | V
  deriving DecidableEq, Repr

/-- The level each block of macros is compared with in its `#if`. -/
def Severity.level : Severity → Int
  | Severity.E => LOG_LEVEL_ERROR
  | Severity.W => LOG_LEVEL_WARNING
  | Severity.I => LOG_LEVEL_INFO
  | Severity.D => LOG_LEVEL_DEBUG
  | Severity.V => LOG_LEVEL_VERBOSE

/-- The string literal each `LOGx_TAG` passes to `_LOG_TAG`. -/
def Severity.letter : Severity → List Char
  | Severity.E => ['E']
  | Severity.W => ['W']
  | Severity.I => ['I']
  | Severity.D => ['D']
  | Severity.V => ['V']

/-- Macro `_LOG_TAG_1(level)`. -/
def _LOG_TAG_1 (level : List Char) : List Char := ['['] ++ level ++ [']']

/-- Macro `_LOG_TAG_2(level, module)`. -/
def _LOG_TAG_2 (level module : List Char) : List Char :=
  ['['] ++ level ++ [']', '['] ++ module ++ [']']

/-- Macro `_LOG_TAG(level)`: `_LOG_TAG_EXPAND` selects `_LOG_TAG_2` when
`LOG_MODULE` is not empty and `_LOG_TAG_1` when it is. -/
def _LOG_TAG (b : Build) (level : List Char) : List Char :=
  match b.LOG_MODULE with
  | some module => _LOG_TAG_2 level module
  | none => _LOG_TAG_1 level

/-- The conversion the `printf` family applies to a format and its
arguments, given unbounded room.  Only one property of it is used: an
ordinary character of the format (any but `%`) is copied unchanged. -/
structure Printf (α : Type) where
  render : List Char → α → List Char
  ordinary : ∀ (c : Char) (f : List Char) (a : α), c ≠ '%' →
    render (c :: f) a = c :: render f a

/-- Whether the `#if LOG_LEVEL >= ...` of a severity's block holds. -/
def Build.enabled (b : Build) (sev : Severity) : Bool :=
  decide (b.LOG_LEVEL ≥ sev.level)

/-- Macros `LOGE`, `LOGW`, `LOGI`, `LOGD`, `LOGV`: the format passed to
`log` is the tag, a space and the caller's format, concatenated. -/
def LOGX {α : Type} (b : Build) (sev : Severity) (P : Printf α)
    (fmt : List Char) (args : α) (s : console.Console) : console.Console :=
  if b.enabled sev then
    s.log (P.render (_LOG_TAG b sev.letter ++ [' '] ++ fmt) args)
  else s

/-- Macros `LOGE_ADD` .. `LOGV_ADD`. -/
def LOGX_ADD {α : Type} (b : Build) (sev : Severity) (P : Printf α)
    (fmt : List Char) (args : α) (s : console.Console) : console.Console :=
  if b.enabled sev then s.format (P.render fmt args) else s

/-- Macros `LOGE_FLUSH` .. `LOGV_FLUSH`. -/
def LOGX_FLUSH (b : Build) (sev : Severity) (s : console.Console) : console.Console :=
  if b.enabled sev then s.flush (_LOG_TAG b sev.letter ++ [' ']) else s

/-- Macro `LOGE`. -/
def LOGE {α : Type} (b : Build) := @LOGX α b Severity.E
/-- Macro `LOGW`. -/
def LOGW {α : Type} (b : Build) := @LOGX α b Severity.W
/-- Macro `LOGI`. -/
def LOGI {α : Type} (b : Build) := @LOGX α b Severity.I
/-- Macro `LOGD`. -/
def LOGD {α : Type} (b : Build) := @LOGX α b Severity.D
/-- Macro `LOGV`. -/
def LOGV {α : Type} (b : Build) := @LOGX α b Severity.V
/-- Macro `LOG`, kept for backward compatibility: the block of `LOGI`. -/
def LOG {α : Type} (b : Build) := @LOGX α b Severity.I

/-- A small conversion for concrete examples: `%d` prints the next
argument, a natural number, in decimal; any other character after `%` is
printed as it is; ordinary characters are copied.  `pct` tells that the
previous character was an unconsumed `%`. -/
def miniRender (pct : Bool) : List Char → List Nat → List Char
  | [], _ => []
  | c :: f, as =>
    if pct then
      if c = 'd' then
        match as with
        | a :: rest => (Nat.repr a).toList ++ miniRender false f rest
        | [] => miniRender false f []
      else c :: miniRender false f as
    else if c = '%' then miniRender true f as
    else c :: miniRender false f as

/-- The small conversion as a `Printf`. -/
def miniPrintf : Printf (List Nat) where
  render := miniRender false
  ordinary := by
    intro c f a hc
    simp [miniRender, hc]

/-! ## Further definitions: the size bound, runs of the legacy logger -/

/-- The value `remaining` that `Console::format` and `Console::vformat`
compute: `sizeof(mBuffer) - length - 1` in `size_t`. -/
def console.Console.remaining (s : console.Console) : Nat :=
  sizeSub (sizeSub console.BUFFER_SIZE (strlen s.mBuffer)) 1

namespace app

/-- One call on the legacy logger; `r` is the rendered text of the format
and arguments passed. -/
inductive Op where
  | setSerial (d : Dev)
  | setBaudRate (v : Nat)
  | format (r : List Char)
  | flush
  | log (r : List Char)
  deriving DecidableEq, Repr

/-- Effect of one call on the legacy logger. -/
def Console.step (t : Console) : Op → Console
  | Op.setSerial d => t.setSerial d
  | Op.setBaudRate v => t.setBaudRate v
  | Op.format r => t.format r
  | Op.flush => t.flush
  | Op.log r => t.log r

/-- Effect of a sequence of calls on the legacy logger, first call first. -/
def Console.run (t : Console) : List Op → Console
  | [] => t
  | o :: ops => (t.step o).run ops

/-- The same call on the current logger; `flush` is called without
argument, so with the default prefix, the empty string. -/
def Op.toCurrent : Op → console.Op
  | Op.setSerial d => console.Op.setSerial d
  | Op.setBaudRate v => console.Op.setBaudRate v
  | Op.format r => console.Op.format r
  | Op.flush => console.Op.flush []
  | Op.log r => console.Op.log r

end app

/-- A record of calls in which every `println` is preceded by a `print` of
the empty string and followed by a `flush` on the same device; the other
calls are kept as they are. -/
def expandLines : List (Dev × SerialCall) → List (Dev × SerialCall)
  | [] => []
  | (d, SerialCall.println x) :: cs =>
    (d, SerialCall.print []) :: (d, SerialCall.println x) :: (d, SerialCall.flush)
      :: expandLines cs
  | e :: cs => e :: expandLines cs

/-- The legacy logger `t` and the current logger `s` agree: same device,
rate and buffer, and the calls of `s` are those of `t` with the empty
prefix printed before, and the device drained after, each line. -/
def app.Console.Agrees (t : app.Console) (s : console.Console) : Prop :=
  t.serial = s.serial ∧ t.baudrate = s.baudrate ∧ t.mBuffer = s.mBuffer
    ∧ s.calls = expandLines t.calls

/-! ## C strings: basic facts -/

theorem NUL_not_mem_cstr (m : List Char) : NUL ∉ cstr m := by
  induction m with
  | nil => simp [cstr]
  | cons c cs ih =>
    by_cases h : c = NUL
    · simp [cstr, h]
    · simp only [cstr, h, if_false, List.mem_cons, not_or]
      exact ⟨fun e => h e.symm, ih⟩

theorem strlen_eq_length_cstr (m : List Char) : strlen m = (cstr m).length := by
  induction m with
  | nil => rfl
  | cons c cs ih =>
    by_cases h : c = NUL
    · simp [strlen, cstr, h]
    · simp [strlen, cstr, h, ih]

theorem take_strlen (m : List Char) : m.take (strlen m) = cstr m := by
  induction m with
  | nil => rfl
  | cons c cs ih =>
    by_cases h : c = NUL
    · simp [strlen, cstr, h]
    · simp [strlen, cstr, h, ih]

theorem strlen_le_length (m : List Char) : strlen m ≤ m.length := by
  induction m with
  | nil => simp [strlen]
  | cons c cs ih =>
    by_cases h : c = NUL
    · simp [strlen, h]
    · simp [strlen, h, ih]

theorem cstr_append_NUL (a rest : List Char) : cstr (a ++ NUL :: rest) = cstr a := by
  induction a with
  | nil => simp [cstr]
  | cons c cs ih =>
    by_cases h : c = NUL
    · simp [cstr, h]
    · simp [cstr, h, ih]

theorem cstr_append_of_not_mem (a b : List Char) (h : NUL ∉ a) :
    cstr (a ++ b) = a ++ cstr b := by
  induction a with
  | nil => simp
  | cons c cs ih =>
    simp only [List.mem_cons, not_or] at h
    have hc : c ≠ NUL := fun e => h.1 e.symm
    simp [cstr, hc, ih h.2]

theorem cstr_of_not_mem (a : List Char) (h : NUL ∉ a) : cstr a = a := by
  have := cstr_append_of_not_mem a [] h
  simpa [cstr] using this

theorem length_cstr_le (a : List Char) : (cstr a).length ≤ a.length := by
  rw [← strlen_eq_length_cstr]; exact strlen_le_length a

theorem cstr_set_zero (m : List Char) : cstr (m.set 0 NUL) = [] := by
  cases m with
  | nil => rfl
  | cons c cs => simp [cstr]

theorem strlen_set_zero (m : List Char) : strlen (m.set 0 NUL) = 0 := by
  rw [strlen_eq_length_cstr, cstr_set_zero]; rfl

theorem length_set_zero (m : List Char) : (m.set 0 NUL).length = m.length := by
  simp

theorem strlen_eq_zero_iff (m : List Char) : strlen m = 0 ↔ cstr m = [] := by
  rw [strlen_eq_length_cstr]; exact List.length_eq_zero

theorem NUL_at_strlen (m : List Char) (h : strlen m < m.length) :
    m[strlen m]? = some NUL := by
  induction m with
  | nil => simp at h
  | cons c cs ih =>
    by_cases hc : c = NUL
    · simp [strlen, hc]
    · simp only [strlen, hc, if_false, List.length_cons] at h ⊢
      simpa using ih (by omega)

/-! ## `size_t` arithmetic and `vsnprintf` -/

theorem sizeSub_of_le (a b : Nat) (h : b ≤ a) (ha : a < SIZE_MOD) : sizeSub a b = a - b := by
  unfold sizeSub SIZE_MOD at *
  omega

theorem remaining_eq (len : Nat) (h : len ≤ 95) :
    sizeSub (sizeSub console.BUFFER_SIZE len) 1 = 95 - len := by
  unfold sizeSub SIZE_MOD console.BUFFER_SIZE
  omega

theorem log_bound_eq : sizeSub console.BUFFER_SIZE 1 = 95 := by decide

theorem cstr_vsnprintf_end (m : List Char) (n : Nat) (r : List Char) (hn : 0 < n) :
    cstr (vsnprintf m (strlen m) n r) = cstr m ++ cstr (r.take (n - 1)) := by
  have hn0 : n ≠ 0 := by omega
  simp only [vsnprintf, hn0, if_false, writeAt, take_strlen, List.append_assoc]
  rw [cstr_append_of_not_mem _ _ (NUL_not_mem_cstr m)]
  simp [cstr_append_NUL]

theorem cstr_vsnprintf_zero (m : List Char) (n : Nat) (r : List Char) (hn : 0 < n) :
    cstr (vsnprintf m 0 n r) = cstr (r.take (n - 1)) := by
  have hn0 : n ≠ 0 := by omega
  simp [vsnprintf, hn0, writeAt, cstr_append_NUL]

theorem length_vsnprintf (m : List Char) (off n : Nat) (r : List Char)
    (h : off + n ≤ m.length) : (vsnprintf m off n r).length = m.length := by
  unfold vsnprintf writeAt
  split
  · rfl
  · simp only [List.length_append, List.length_take, List.length_drop, List.length_cons,
      List.length_nil]
    omega

theorem drop_succ_set_zero (m : List Char) (k : Nat) (x : Char) :
    (m.set 0 x).drop (k + 1) = m.drop (k + 1) := by
  cases m <;> simp

theorem vsnprintf_zero_set_zero (m : List Char) (n : Nat) (r : List Char) :
    vsnprintf (m.set 0 NUL) 0 n r = if n = 0 then m.set 0 NUL else vsnprintf m 0 n r := by
  unfold vsnprintf writeAt
  split
  · rfl
  · simp [drop_succ_set_zero]

theorem take_append_take_append {α : Type} (a r c : List α) (n : Nat) (h : a.length ≤ n) :
    (a ++ r.take (n - a.length) ++ c).take n = (a ++ (r ++ c)).take n := by
  by_cases hr : r.length ≤ n - a.length
  · rw [List.take_of_length_le hr, List.append_assoc]
  · have hk : (a ++ r.take (n - a.length)).length = n := by
      simp only [List.length_append, List.length_take]; omega
    have h1 : (a ++ r.take (n - a.length) ++ c).take n = a ++ r.take (n - a.length) := by
      rw [List.take_append_of_le_length (by omega), List.take_of_length_le (by omega)]
    have h2 : (a ++ (r ++ c)).take n = a ++ r.take (n - a.length) := by
      rw [List.take_append_eq_append_take, List.take_of_length_le h,
        List.take_append_of_le_length (by omega)]
    rw [h1, h2]

/-! ## The member functions, one by one -/

namespace console

theorem vformat_eq_format (s : Console) (r : List Char) : s.vformat r = s.format r := rfl

theorem format_of_none (s : Console) (r : List Char) (h : s.serial = none) :
    s.format r = s := by
  simp [Console.format, h]

theorem flush_of_none (s : Console) (p : List Char) (h : s.serial = none) :
    s.flush p = s := by
  simp [Console.flush, h]

theorem log_of_none (s : Console) (r : List Char) (h : s.serial = none) :
    s.log r = s := by
  simp [Console.log, h]

theorem format_of_some (s : Console) (d : Dev) (r : List Char) (h : s.serial = some d)
    (hl : strlen s.mBuffer ≤ 95) :
    s.format r =
      { s with mBuffer := vsnprintf s.mBuffer (strlen s.mBuffer) (95 - strlen s.mBuffer) r } := by
  simp [Console.format, h, remaining_eq _ hl]

theorem flush_of_empty (s : Console) (p : List Char) (h : strlen s.mBuffer = 0) :
    s.flush p = s := by
  unfold Console.flush
  cases s.serial <;> simp [h]

theorem flush_of_pending (s : Console) (d : Dev) (p : List Char) (h : s.serial = some d)
    (hb : 0 < strlen s.mBuffer) :
    s.flush p = { s with
      mBuffer := s.mBuffer.set 0 NUL,
      calls := s.calls ++ [(d, SerialCall.print p), (d, SerialCall.println (cstr s.mBuffer)),
        (d, SerialCall.flush)] } := by
  simp [Console.flush, h, hb, Console.call]

theorem log_of_some (s : Console) (d : Dev) (r : List Char) (h : s.serial = some d) :
    s.log r = Console.flush { s with mBuffer := vsnprintf s.mBuffer 0 95 r } [] := by
  simp [Console.log, h, log_bound_eq]

theorem cstr_format (s : Console) (d : Dev) (r : List Char) (h : s.serial = some d)
    (hl : strlen s.mBuffer ≤ 94) :
    cstr (s.format r).mBuffer = cstr s.mBuffer ++ cstr (r.take (94 - strlen s.mBuffer)) := by
  rw [format_of_some s d r h (by omega)]
  simp only
  rw [cstr_vsnprintf_end _ _ _ (by omega)]
  congr 3
  omega

theorem logSpec_eq_log (s : Console) (d : Dev) (r : List Char) (h : s.serial = some d) :
    s.logSpec r = s.log r := by
  unfold Console.logSpec Console.log Console.format Console.clear
  simp only [h, strlen_set_zero, vsnprintf_zero_set_zero]
  rfl

/-! ## The representation invariant -/

theorem Inv_construct (rate : Nat) : (Console.construct rate).Inv := by
  refine ⟨by simp [Console.construct, Console.call], ?_, by simp [Console.construct, Console.call]⟩
  have : strlen (Console.construct rate).mBuffer = 0 := by
    simp [Console.construct, Console.call, BUFFER_SIZE, List.replicate, strlen]
  omega

theorem Inv_setSerial (s : Console) (d : Dev) (h : s.Inv) : (s.setSerial d).Inv := by
  obtain ⟨h1, h2, _⟩ := h
  exact ⟨by simpa [Console.setSerial, Console.call] using h1,
    by simpa [Console.setSerial, Console.call] using h2,
    by simp [Console.setSerial, Console.call]⟩

theorem Inv_setBaudRate (s : Console) (v : Nat) (h : s.Inv) : (s.setBaudRate v).Inv := by
  obtain ⟨h1, h2, h3⟩ := h
  unfold Console.setBaudRate
  cases hs : s.serial with
  | none => exact absurd hs h3
  | some d => exact ⟨by simpa [Console.call] using h1, by simpa [Console.call] using h2,
      by simp [Console.call, hs]⟩

theorem Inv_format (s : Console) (r : List Char) (h : s.Inv) : (s.format r).Inv := by
  obtain ⟨h1, h2, h3⟩ := h
  cases hs : s.serial with
  | none => exact absurd hs h3
  | some d =>
    refine ⟨?_, ?_, ?_⟩
    · rw [format_of_some s d r hs (by omega)]
      simp only
      rw [length_vsnprintf _ _ _ _ (by rw [h1]; unfold BUFFER_SIZE; omega)]
      exact h1
    · rw [strlen_eq_length_cstr, cstr_format s d r hs h2, List.length_append,
        ← strlen_eq_length_cstr]
      have := length_cstr_le (r.take (94 - strlen s.mBuffer))
      have := List.length_take_le (94 - strlen s.mBuffer) r
      omega
    · rw [format_of_some s d r hs (by omega)]
      simpa using h3

theorem Inv_flush (s : Console) (p : List Char) (h : s.Inv) : (s.flush p).Inv := by
  obtain ⟨h1, h2, h3⟩ := h
  cases hs : s.serial with
  | none => exact absurd hs h3
  | some d =>
    by_cases hb : 0 < strlen s.mBuffer
    · rw [flush_of_pending s d p hs hb]
      exact ⟨by simpa using h1, by simp [strlen_set_zero], by simp [hs]⟩
    · rw [flush_of_empty s p (by omega)]
      exact ⟨h1, h2, h3⟩

theorem Inv_log (s : Console) (r : List Char) (h : s.Inv) : (s.log r).Inv := by
  obtain ⟨h1, h2, h3⟩ := h
  cases hs : s.serial with
  | none => exact absurd hs h3
  | some d =>
    rw [log_of_some s d r hs]
    apply Inv_flush
    refine ⟨?_, ?_, by simpa using h3⟩
    · simp only
      rw [length_vsnprintf _ _ _ _ (by rw [h1]; unfold BUFFER_SIZE; omega)]
      exact h1
    · simp only
      rw [strlen_eq_length_cstr, cstr_vsnprintf_zero _ _ _ (by omega)]
      have := length_cstr_le (r.take (95 - 1))
      have := List.length_take_le (95 - 1) r
      omega

theorem Inv_step (s : Console) (o : Op) (h : s.Inv) : (s.step o).Inv := by
  cases o with
  | setSerial d => exact Inv_setSerial s d h
  | setBaudRate v => exact Inv_setBaudRate s v h
  | format r => exact Inv_format s r h
  | vformat r => exact Inv_format s r h
  | flush p => exact Inv_flush s p h
  | log r => exact Inv_log s r h
  | vlog r => exact Inv_flush _ _ (Inv_format s r h)

theorem Inv_run (ops : List Op) (s : Console) (h : s.Inv) : (s.run ops).Inv := by
  induction ops generalizing s with
  | nil => exact h
  | cons o ops ih => exact ih _ (Inv_step s o h)

theorem Inv_of_Reachable (s : Console) (h : Reachable s) : s.Inv := by
  obtain ⟨rate, ops, rfl⟩ := h
  exact Inv_run ops _ (Inv_construct rate)

theorem run_append (s : Console) (ops1 ops2 : List Op) :
    s.run (ops1 ++ ops2) = (s.run ops1).run ops2 := by
  induction ops1 generalizing s with
  | nil => rfl
  | cons o ops ih => exact ih _

theorem Reachable_step (s : Console) (o : Op) (h : Reachable s) : Reachable (s.step o) := by
  obtain ⟨rate, ops, rfl⟩ := h
  exact ⟨rate, ops ++ [o], by rw [run_append]; rfl⟩

/-! ## Appending -/

theorem cstr_format_text (s : Console) (r : List Char) (h : s.Inv) (hr : NUL ∉ r) :
    cstr (s.format r).mBuffer = cstr s.mBuffer ++ r.take (94 - (cstr s.mBuffer).length) := by
  obtain ⟨_, h2, h3⟩ := h
  cases hs : s.serial with
  | none => exact absurd hs h3
  | some d =>
    rw [cstr_format s d r hs h2, ← strlen_eq_length_cstr]
    rw [cstr_of_not_mem _ (fun hm => hr (List.mem_of_mem_take hm))]

/-- The buffer after a run of appends: the first 94 characters of what was
there followed by the rendered texts. -/
theorem cstr_run_appends (ops : List Op) (s : Console) (hs : s.Inv)
    (happ : ∀ o ∈ ops, o.isAppend = true) (hnul : ∀ o ∈ ops, NUL ∉ o.rendered) :
    cstr (s.run ops).mBuffer = (cstr s.mBuffer ++ renderedConcat ops).take 94 := by
  induction ops generalizing s with
  | nil =>
    have := hs.2.1
    rw [strlen_eq_length_cstr] at this
    simp [Console.run, renderedConcat, List.take_of_length_le this]
  | cons o ops ih =>
    have hlen : (cstr s.mBuffer).length ≤ 94 := by
      rw [← strlen_eq_length_cstr]; exact hs.2.1
    have ho := happ o (List.mem_cons_self _ _)
    have hn := hnul o (List.mem_cons_self _ _)
    have key : cstr (s.step o).mBuffer
        = cstr s.mBuffer ++ (o.rendered).take (94 - (cstr s.mBuffer).length) := by
      cases o with
      | format r => exact cstr_format_text s r hs hn
      | vformat r => exact cstr_format_text s r hs hn
      | setSerial d => simp [Op.isAppend] at ho
      | setBaudRate v => simp [Op.isAppend] at ho
      | flush q => simp [Op.isAppend] at ho
      | log r => simp [Op.isAppend] at ho
      | vlog r => simp [Op.isAppend] at ho
    show cstr ((s.step o).run ops).mBuffer = _
    rw [ih (s.step o) (Inv_step s o hs) (fun x hx => happ x (List.mem_cons_of_mem _ hx))
      (fun x hx => hnul x (List.mem_cons_of_mem _ hx)), key]
    exact take_append_take_append _ _ _ 94 hlen

theorem cstr_flush_of_some (s : Console) (d : Dev) (p : List Char) (h : s.serial = some d) :
    cstr (s.flush p).mBuffer = [] := by
  by_cases hb : 0 < strlen s.mBuffer
  · rw [flush_of_pending s d p h hb]
    exact cstr_set_zero _
  · rw [flush_of_empty s p (by omega)]
    exact (strlen_eq_zero_iff _).1 (by omega)

/-- The calls `log` makes for a non-empty rendered text that fits the buffer. -/
theorem log_calls (s : Console) (d : Dev) (r : List Char) (hd : s.serial = some d)
    (hne : r ≠ []) (hnul : NUL ∉ r) (hlen : r.length ≤ 94) :
    (s.log r).calls = s.calls ++ [(d, SerialCall.print []), (d, SerialCall.println r),
      (d, SerialCall.flush)] := by
  have hc : cstr (vsnprintf s.mBuffer 0 95 r) = r := by
    rw [cstr_vsnprintf_zero _ _ _ (by omega), List.take_of_length_le (by omega),
      cstr_of_not_mem _ hnul]
  have hpos : 0 < strlen (vsnprintf s.mBuffer 0 95 r) := by
    rw [strlen_eq_length_cstr, hc]
    exact List.length_pos.2 hne
  rw [log_of_some s d r hd,
    flush_of_pending { s with mBuffer := vsnprintf s.mBuffer 0 95 r } d [] hd hpos]
  simp only [hc]

/-- The calls `log` makes for any non-empty rendered text without `NUL`:
the line carries the first 94 characters. -/
theorem log_calls_take (s : Console) (d : Dev) (r : List Char) (hd : s.serial = some d)
    (hne : r ≠ []) (hnul : NUL ∉ r) :
    (s.log r).calls = s.calls ++ [(d, SerialCall.print []),
      (d, SerialCall.println (r.take 94)), (d, SerialCall.flush)] := by
  have hc : cstr (vsnprintf s.mBuffer 0 95 r) = r.take 94 := by
    rw [cstr_vsnprintf_zero _ _ _ (by omega),
      cstr_of_not_mem _ (fun hm => hnul (List.mem_of_mem_take hm))]
  have hpos : 0 < strlen (vsnprintf s.mBuffer 0 95 r) := by
    rw [strlen_eq_length_cstr, hc]
    cases r with
    | nil => exact absurd rfl hne
    | cons c r' => simp
  rw [log_of_some s d r hd,
    flush_of_pending { s with mBuffer := vsnprintf s.mBuffer 0 95 r } d [] hd hpos]
  simp only [hc]

theorem cstr_take_succ_eq_nil_iff (r : List Char) (n : Nat) :
    cstr (r.take (n + 1)) = [] ↔ cstr r = [] := by
  cases r with
  | nil => simp
  | cons c r' =>
    by_cases hc : c = NUL
    · simp [cstr, hc]
    · simp [cstr, hc]

/-! ## The claims -/

/-- C1: a sequence of appends from an empty buffer whose rendered lengths
add up to at most 95 should leave the exact concatenation in the buffer.
Evaluated on the constructed logger and one `format` whose rendered text is
95 letters: the buffer then holds 94 letters, the last one is lost. -/
theorem C1_format_95_letters_keeps_94 :
    cstr ((Console.construct SERIAL_BAUD_RATE).run
        [Op.format (List.replicate 95 'a')]).mBuffer = List.replicate 94 'a'
    ∧ cstr ((Console.construct SERIAL_BAUD_RATE).run
        [Op.format (List.replicate 95 'a')]).mBuffer
      ≠ renderedConcat [Op.format (List.replicate 95 'a')] := by
  decide

/-- C2: a sequence of appends from an empty buffer whose rendered lengths
add up to more than 95 should leave the first 95 characters of the
concatenation, zero-terminated.  Evaluated on the constructed logger, a
`format` of 60 letters and a `vformat` of 60 letters: the buffer holds the
first 94 characters of the concatenation, with the terminator at index 94. -/
theorem C2_overflowing_appends_keep_94 :
    cstr ((Console.construct SERIAL_BAUD_RATE).run
        [Op.format (List.replicate 60 'a'), Op.vformat (List.replicate 60 'b')]).mBuffer
      = List.replicate 60 'a' ++ List.replicate 34 'b'
    ∧ cstr ((Console.construct SERIAL_BAUD_RATE).run
        [Op.format (List.replicate 60 'a'), Op.vformat (List.replicate 60 'b')]).mBuffer
      ≠ (renderedConcat
          [Op.format (List.replicate 60 'a'), Op.vformat (List.replicate 60 'b')]).take 95
    ∧ ((Console.construct SERIAL_BAUD_RATE).run
        [Op.format (List.replicate 60 'a'), Op.vformat (List.replicate 60 'b')]).mBuffer[94]?
      = some NUL := by
  decide

/-- C3, as stated, fails when the rendered text is empty: `log` then makes
no `println` call at all, where the claim asks for exactly one, of the
rendered text. -/
theorem C3_empty_render_writes_nothing :
    ¬ (printlns (((Console.construct SERIAL_BAUD_RATE).log []).calls.drop
        (Console.construct SERIAL_BAUD_RATE).calls.length) = [[]]) := by
  decide

/-- C3, amended: with a device set, `log` has the same effect on the buffer
and on the transport as clearing the buffer, appending the rendered text
and flushing with an empty prefix; the buffer is empty afterwards; and when
the rendered text is not empty, has no `NUL` and has at most 94 characters,
the calls made are a `print` of the empty prefix, one `println` of the
rendered text and a `flush`, so nothing of the earlier content is sent. -/
theorem C3_log_is_clear_append_flush (s : Console) (d : Dev) (r : List Char)
    (hd : s.serial = some d) :
    s.log r = s.logSpec r
    ∧ cstr (s.log r).mBuffer = []
    ∧ (r ≠ [] → NUL ∉ r → r.length ≤ 94 →
        (s.log r).calls = s.calls ++ [(d, SerialCall.print []), (d, SerialCall.println r),
          (d, SerialCall.flush)]
        ∧ printlns ((s.log r).calls.drop s.calls.length) = [r]) := by
  refine ⟨(logSpec_eq_log s d r hd).symm, ?_, ?_⟩
  · rw [log_of_some s d r hd]
    exact cstr_flush_of_some _ d [] hd
  · intro hne hnul hlen
    have hcalls := log_calls s d r hd hne hnul hlen
    refine ⟨hcalls, ?_⟩
    rw [hcalls, List.drop_left]
    rfl

/-- C3 at `log("n=%d", 5)`, whose rendered text is `n=5`, on a logger that
holds the unflushed text `old`. -/
theorem C3_log_is_clear_append_flush_witness :
    (((Console.construct SERIAL_BAUD_RATE).format ['o', 'l', 'd']).log ['n', '=', '5']).calls
      = ((Console.construct SERIAL_BAUD_RATE).format ['o', 'l', 'd']).calls
        ++ [(Serial, SerialCall.print []), (Serial, SerialCall.println ['n', '=', '5']),
          (Serial, SerialCall.flush)] :=
  ((C3_log_is_clear_append_flush ((Console.construct SERIAL_BAUD_RATE).format ['o', 'l', 'd'])
    Serial ['n', '=', '5'] (by decide)).2.2 (by decide) (by decide) (by decide)).1

/-- C4, as stated, fails: the one line-write call does not carry the
prefix.  On the buffer `hello`, `flush("X: ")` makes one `println` call and
its content is `hello`, not `X: hello`; the prefix goes out in the `print`
call before it. -/
theorem C4_line_write_carries_buffer_only :
    printlns ((((Console.construct SERIAL_BAUD_RATE).format ['h', 'e', 'l', 'l', 'o']).flush
        ['X', ':', ' ']).calls.drop
          ((Console.construct SERIAL_BAUD_RATE).format ['h', 'e', 'l', 'l', 'o']).calls.length)
      = [['h', 'e', 'l', 'l', 'o']]
    ∧ ¬ (printlns ((((Console.construct SERIAL_BAUD_RATE).format
        ['h', 'e', 'l', 'l', 'o']).flush ['X', ':', ' ']).calls.drop
          ((Console.construct SERIAL_BAUD_RATE).format ['h', 'e', 'l', 'l', 'o']).calls.length)
      = [['X', ':', ' ', 'h', 'e', 'l', 'l', 'o']]) := by
  decide

/-- C4, amended: with a device set and a buffer holding the non-empty text
`b`, `flush(p)` makes exactly the calls `print(p)`, `println(b)`, `flush()`
on the device: a raw write of the prefix, one line-write whose content is
`b`, and a drain; the characters that reach the wire are `p`, `b` and the
line terminator `nl` in this order, and the buffer is empty afterwards;
device and rate are unchanged. -/
theorem C4_flush_writes_one_line (s : Console) (d : Dev) (p b nl : List Char)
    (hd : s.serial = some d) (hb : cstr s.mBuffer = b) (hne : b ≠ []) :
    (s.flush p).calls = s.calls ++ [(d, SerialCall.print p), (d, SerialCall.println b),
        (d, SerialCall.flush)]
    ∧ printlns ((s.flush p).calls.drop s.calls.length) = [b]
    ∧ wire nl d ((s.flush p).calls.drop s.calls.length) = p ++ b ++ nl
    ∧ cstr (s.flush p).mBuffer = []
    ∧ (s.flush p).serial = s.serial ∧ (s.flush p).baudrate = s.baudrate := by
  have hpos : 0 < strlen s.mBuffer := by
    rw [strlen_eq_length_cstr, hb]
    exact List.length_pos.2 hne
  have hcalls : (s.flush p).calls = s.calls ++ [(d, SerialCall.print p),
      (d, SerialCall.println b), (d, SerialCall.flush)] := by
    rw [flush_of_pending s d p hd hpos, hb]
  refine ⟨hcalls, ?_, ?_, cstr_flush_of_some s d p hd, ?_, ?_⟩
  · rw [hcalls, List.drop_left]
    rfl
  · rw [hcalls, List.drop_left]
    simp [wire, SerialCall.text]
  · rw [flush_of_pending s d p hd hpos]
  · rw [flush_of_pending s d p hd hpos]

/-- C4 at `flush("X: ")` on the buffer `hello`. -/
theorem C4_flush_writes_one_line_witness :
    (((Console.construct SERIAL_BAUD_RATE).format ['h', 'e', 'l', 'l', 'o']).flush
        ['X', ':', ' ']).calls
      = ((Console.construct SERIAL_BAUD_RATE).format ['h', 'e', 'l', 'l', 'o']).calls
        ++ [(Serial, SerialCall.print ['X', ':', ' ']),
          (Serial, SerialCall.println ['h', 'e', 'l', 'l', 'o']), (Serial, SerialCall.flush)] :=
  (C4_flush_writes_one_line ((Console.construct SERIAL_BAUD_RATE).format ['h', 'e', 'l', 'l', 'o'])
    Serial ['X', ':', ' '] ['h', 'e', 'l', 'l', 'o'] ['\r', '\n']
    (by decide) (by decide) (by decide)).1

/-- C5: `vlog` (and the free `console::log`, which delegates to it) should
behave as `log` in every state.  Evaluated on a logger holding the unflushed
text `ab`, with rendered text `c`: `log` sends the line `c` and drops `ab`,
while `vlog` and `console::log` send the line `abc`. -/
theorem C5_vlog_appends_where_log_overwrites :
    printlns (((Console.construct SERIAL_BAUD_RATE).format ['a', 'b']).log ['c']).calls
      = [['c']]
    ∧ printlns (((Console.construct SERIAL_BAUD_RATE).format ['a', 'b']).vlog ['c']).calls
      = [['a', 'b', 'c']]
    ∧ printlns (log ((Console.construct SERIAL_BAUD_RATE).format ['a', 'b']) ['c']).calls
      = [['a', 'b', 'c']]
    ∧ ((Console.construct SERIAL_BAUD_RATE).format ['a', 'b']).vlog ['c']
      ≠ ((Console.construct SERIAL_BAUD_RATE).format ['a', 'b']).log ['c'] := by
  decide

/-- C6: with no device set, every sequence of `format`, `vformat`, `flush`,
`log` and `vlog` calls returns (the functions are total) and leaves the
whole state as it was: no call on any device is made, and buffer and rate
are unchanged. -/
theorem C6_no_transport_is_noop (s : Console) (ops : List Op) (hs : s.serial = none)
    (hops : ∀ o ∈ ops, o.isOutput = true) :
    s.run ops = s
    ∧ (s.run ops).calls = s.calls
    ∧ (s.run ops).mBuffer = s.mBuffer ∧ (s.run ops).baudrate = s.baudrate := by
  have key : s.run ops = s := by
    induction ops with
    | nil => rfl
    | cons o ops ih =>
      have ho := hops o (List.mem_cons_self _ _)
      have hstep : s.step o = s := by
        cases o with
        | setSerial d => simp [Op.isOutput] at ho
        | setBaudRate v => simp [Op.isOutput] at ho
        | format r => exact format_of_none s r hs
        | vformat r => exact format_of_none s r hs
        | flush q => exact flush_of_none s q hs
        | log r => exact log_of_none s r hs
        | vlog r =>
          show (s.vformat r).flush [] = s
          rw [vformat_eq_format, format_of_none s r hs, flush_of_none s [] hs]
      show (s.step o).run ops = s
      rw [hstep]
      exact ih (fun x hx => hops x (List.mem_cons_of_mem _ hx))
  rw [key]
  exact ⟨rfl, rfl, rfl, rfl⟩

/-- C6 on a logger without device that holds the text `x`, for one call of
each kind. -/
theorem C6_no_transport_is_noop_witness :
    Console.run
      { serial := none, baudrate := 9600, mBuffer := 'x' :: List.replicate 95 NUL, calls := [] }
      [Op.format ['a'], Op.vformat ['b'], Op.flush ['p'], Op.log ['c'], Op.vlog ['d']]
    = { serial := none, baudrate := 9600, mBuffer := 'x' :: List.replicate 95 NUL, calls := [] } :=
  (C6_no_transport_is_noop
    { serial := none, baudrate := 9600, mBuffer := 'x' :: List.replicate 95 NUL, calls := [] }
    [Op.format ['a'], Op.vformat ['b'], Op.flush ['p'], Op.log ['c'], Op.vlog ['d']]
    (by decide) (by decide)).1

end console

namespace app

theorem legacy_flush_of_empty (t : Console) (h : strlen t.mBuffer = 0) : t.flush = t := by
  unfold Console.flush
  cases t.serial <;> simp [h]

theorem legacy_cstr_flush_of_some (t : Console) (d : Dev) (h : t.serial = some d) :
    cstr t.flush.mBuffer = [] := by
  by_cases hb : 0 < strlen t.mBuffer
  · simp [Console.flush, h, hb, Console.call, cstr_set_zero]
  · rw [legacy_flush_of_empty t (by omega)]
    exact (strlen_eq_zero_iff _).1 (by omega)

theorem legacy_flush_flush (t : Console) : t.flush.flush = t.flush := by
  cases h : t.serial with
  | none => simp [Console.flush, h]
  | some d =>
    apply legacy_flush_of_empty
    rw [strlen_eq_zero_iff]
    exact legacy_cstr_flush_of_some t d h

end app

namespace console

theorem flush_flush (s : Console) (p q : List Char) : (s.flush p).flush q = s.flush p := by
  cases h : s.serial with
  | none => rw [flush_of_none s p h, flush_of_none s q h]
  | some d =>
    apply flush_of_empty
    rw [strlen_eq_zero_iff]
    exact cstr_flush_of_some s d p h

/-- C7: for every prefix `p`, `flush(p)` on a state `s` whose buffer is
empty (device set or not) changes nothing: no call is made on any device
and the buffer stays empty; hence, from any state `u`, a flush right after
a flush changes nothing.  The legacy `app::Console::flush` does the same on
`t` and `v`. -/
theorem C7_flush_on_empty_is_noop (s u : Console) (t v : app.Console) (p q : List Char)
    (hs : cstr s.mBuffer = []) (ht : cstr t.mBuffer = []) :
    s.flush p = s
    ∧ (s.flush p).calls = s.calls ∧ cstr (s.flush p).mBuffer = []
    ∧ (u.flush p).flush q = u.flush p
    ∧ t.flush = t
    ∧ v.flush.flush = v.flush := by
  have h1 : s.flush p = s := flush_of_empty s p ((strlen_eq_zero_iff _).2 hs)
  refine ⟨h1, ?_, ?_, flush_flush u p q,
    app.legacy_flush_of_empty t ((strlen_eq_zero_iff _).2 ht), app.legacy_flush_flush v⟩
  · rw [h1]
  · rw [h1]; exact hs

/-- C7 on the freshly constructed loggers (empty buffer) and on loggers
holding the text `hi`. -/
theorem C7_flush_on_empty_is_noop_witness :
    (Console.construct SERIAL_BAUD_RATE).flush ['X'] = Console.construct SERIAL_BAUD_RATE
    ∧ (((Console.construct SERIAL_BAUD_RATE).format ['h', 'i']).flush ['X']).flush ['Y']
      = ((Console.construct SERIAL_BAUD_RATE).format ['h', 'i']).flush ['X'] :=
  ⟨(C7_flush_on_empty_is_noop (Console.construct SERIAL_BAUD_RATE)
      ((Console.construct SERIAL_BAUD_RATE).format ['h', 'i'])
      (app.Console.construct 115200) ((app.Console.construct 115200).format ['h', 'i'])
      ['X'] ['Y'] (by decide) (by decide)).1,
   (C7_flush_on_empty_is_noop (Console.construct SERIAL_BAUD_RATE)
      ((Console.construct SERIAL_BAUD_RATE).format ['h', 'i'])
      (app.Console.construct 115200) ((app.Console.construct 115200).format ['h', 'i'])
      ['X'] ['Y'] (by decide) (by decide)).2.2.2.1⟩

/-- C8: in every state reachable from construction by `setSerial`,
`setBaudRate`, `format`, `vformat`, `flush`, `log` and `vlog` calls, the
buffer is the 96-byte array, it holds a terminator at an index below 96,
and its text has at most 95 characters.  The buffer is empty at
construction, after every `flush` that made a call on the transport, and
after every `log` and `vlog`. -/
theorem C8_buffer_invariant (s : Console) (h : Reachable s) :
    s.mBuffer.length = BUFFER_SIZE
    ∧ (∃ i, i < BUFFER_SIZE ∧ s.mBuffer[i]? = some NUL)
    ∧ (cstr s.mBuffer).length ≤ BUFFER_SIZE - 1
    ∧ (∀ rate, cstr (Console.construct rate).mBuffer = [])
    ∧ (∀ p, (s.flush p).calls ≠ s.calls → cstr (s.flush p).mBuffer = [])
    ∧ (∀ r, cstr (s.log r).mBuffer = [] ∧ cstr (s.vlog r).mBuffer = []) := by
  obtain ⟨h1, h2, h3⟩ := Inv_of_Reachable s h
  have hlt : strlen s.mBuffer < s.mBuffer.length := by
    rw [h1]; unfold BUFFER_SIZE; omega
  obtain ⟨d, hd⟩ := Option.ne_none_iff_exists'.1 h3
  refine ⟨h1, ⟨strlen s.mBuffer, by rw [← h1]; exact hlt, NUL_at_strlen _ hlt⟩, ?_, ?_, ?_, ?_⟩
  · rw [← strlen_eq_length_cstr]; unfold BUFFER_SIZE; omega
  · intro rate
    simp [Console.construct, Console.call, BUFFER_SIZE, List.replicate, cstr]
  · intro p _
    exact cstr_flush_of_some s d p hd
  · intro r
    constructor
    · rw [log_of_some s d r hd]
      exact cstr_flush_of_some _ d [] hd
    · have hf : (s.vformat r).serial = some d := by
        rw [vformat_eq_format, format_of_some s d r hd (by omega)]
        exact hd
      exact cstr_flush_of_some _ d [] hf

/-- C8 on the state reached by `format` of `hi`, `setBaudRate(9600)` and
`vlog` of `x`. -/
theorem C8_buffer_invariant_witness :
    ((Console.construct SERIAL_BAUD_RATE).run
        [Op.format ['h', 'i'], Op.setBaudRate 9600, Op.vlog ['x']]).mBuffer.length = BUFFER_SIZE
    ∧ (cstr ((Console.construct SERIAL_BAUD_RATE).run
        [Op.format ['h', 'i'], Op.setBaudRate 9600, Op.vlog ['x']]).mBuffer).length
      ≤ BUFFER_SIZE - 1 :=
  ⟨(C8_buffer_invariant _ ⟨SERIAL_BAUD_RATE,
      [Op.format ['h', 'i'], Op.setBaudRate 9600, Op.vlog ['x']], rfl⟩).1,
   (C8_buffer_invariant _ ⟨SERIAL_BAUD_RATE,
      [Op.format ['h', 'i'], Op.setBaudRate 9600, Op.vlog ['x']], rfl⟩).2.2.1⟩

end console

/-! ## Rate of the device that is written to -/

theorem lastBegin_append (d : Dev) (cs ws : List (Dev × SerialCall)) :
    lastBegin d (cs ++ ws) =
      match lastBegin d ws with
      | some r => some r
      | none => lastBegin d cs := by
  induction cs with
  | nil =>
    cases h : lastBegin d ws <;> simp [lastBegin, h]
  | cons e cs ih =>
    obtain ⟨d1, c⟩ := e
    rw [List.cons_append]
    simp only [lastBegin]
    rw [ih]
    cases lastBegin d ws with
    | some r => rfl
    | none => rfl

theorem lastBegin_writes (d : Dev) (ws : List (Dev × SerialCall))
    (h : ∀ e ∈ ws, e.2.isWrite = true) : lastBegin d ws = none := by
  induction ws with
  | nil => rfl
  | cons e ws ih =>
    obtain ⟨d1, c⟩ := e
    have hc := h (d1, c) (List.mem_cons_self _ _)
    simp only [lastBegin, ih (fun x hx => h x (List.mem_cons_of_mem _ hx))]
    cases c <;> simp_all [SerialCall.isWrite]

theorem lastBegin_append_writes (d : Dev) (cs ws : List (Dev × SerialCall))
    (h : ∀ e ∈ ws, e.2.isWrite = true) : lastBegin d (cs ++ ws) = lastBegin d cs := by
  rw [lastBegin_append, lastBegin_writes d ws h]

theorem lastBegin_append_begin (d : Dev) (cs : List (Dev × SerialCall)) (r : Nat) :
    lastBegin d (cs ++ [(d, SerialCall.begin r)]) = some r := by
  rw [lastBegin_append]
  simp [lastBegin]

namespace console

/-- What `flush` adds to the record of calls: nothing but writes on the
device that is set; device and rate stay. -/
theorem flush_calls (s : Console) (p : List Char) :
    ∃ ws, (s.flush p).calls = s.calls ++ ws
      ∧ (∀ e ∈ ws, e.2.isWrite = true ∧ s.serial = some e.1)
      ∧ (s.flush p).serial = s.serial ∧ (s.flush p).baudrate = s.baudrate := by
  cases hs : s.serial with
  | none =>
    rw [flush_of_none s p hs]
    exact ⟨[], by simp, by simp, hs, rfl⟩
  | some d =>
    by_cases hb : 0 < strlen s.mBuffer
    · rw [flush_of_pending s d p hs hb]
      refine ⟨_, rfl, ?_, hs, rfl⟩
      intro e he
      simp only [List.mem_cons, List.mem_singleton, List.not_mem_nil, or_false] at he
      rcases he with rfl | rfl | rfl <;> exact ⟨rfl, rfl⟩
    · rw [flush_of_empty s p (by omega)]
      exact ⟨[], by simp, by simp, hs, rfl⟩

theorem format_frame (s : Console) (r : List Char) :
    (s.format r).calls = s.calls ∧ (s.format r).serial = s.serial
      ∧ (s.format r).baudrate = s.baudrate := by
  cases h : s.serial <;> simp [Console.format, h]

/-- What a call other than `setSerial` and `setBaudRate` adds to the
record of calls: nothing but writes on the device that is set; device and
rate stay. -/
theorem output_step_calls (s : Console) (o : Op) (ho : o.isOutput = true) :
    ∃ ws, (s.step o).calls = s.calls ++ ws
      ∧ (∀ e ∈ ws, e.2.isWrite = true ∧ s.serial = some e.1)
      ∧ (s.step o).serial = s.serial ∧ (s.step o).baudrate = s.baudrate := by
  cases o with
  | setSerial d => simp [Op.isOutput] at ho
  | setBaudRate v => simp [Op.isOutput] at ho
  | format r =>
    obtain ⟨f1, f2, f3⟩ := format_frame s r
    exact ⟨[], by simp [Console.step, f1], by simp, f2, f3⟩
  | vformat r =>
    obtain ⟨f1, f2, f3⟩ := format_frame s r
    exact ⟨[], by simp [Console.step, vformat_eq_format, f1], by simp, f2, f3⟩
  | flush p => exact flush_calls s p
  | log r =>
    cases hs : s.serial with
    | none =>
      refine ⟨[], ?_, by simp, ?_, ?_⟩ <;> simp [Console.step, log_of_none s r hs, hs]
    | some d =>
      obtain ⟨ws, h1, h2, h3, h4⟩ :=
        flush_calls { s with mBuffer := vsnprintf s.mBuffer 0 95 r } []
      refine ⟨ws, ?_, ?_, ?_, ?_⟩
      · show (s.log r).calls = _
        rw [log_of_some s d r hs]; exact h1
      · intro e he
        exact ⟨(h2 e he).1, hs ▸ (h2 e he).2⟩
      · show (s.log r).serial = _
        rw [log_of_some s d r hs]; exact hs ▸ h3
      · show (s.log r).baudrate = _
        rw [log_of_some s d r hs]; exact h4
  | vlog r =>
    obtain ⟨ws, h1, h2, h3, h4⟩ := flush_calls (s.format r) []
    obtain ⟨f1, f2, f3⟩ := format_frame s r
    refine ⟨ws, ?_, ?_, h3.trans f2, h4.trans f3⟩
    · show ((s.format r).flush []).calls = _
      rw [h1, f1]
    · intro e he
      exact ⟨(h2 e he).1, f2 ▸ (h2 e he).2⟩

theorem AtRate_construct (rate : Nat) : (Console.construct rate).AtRate :=
  ⟨Serial, rfl, by simp [Console.construct, Console.call, lastBegin]⟩

theorem AtRate_step (s : Console) (o : Op) (h : s.AtRate) : (s.step o).AtRate := by
  obtain ⟨c, hc, hr⟩ := h
  by_cases ho : o.isOutput = true
  · obtain ⟨ws, h1, h2, h3, h4⟩ := output_step_calls s o ho
    refine ⟨c, h3.trans hc, ?_⟩
    rw [h1, h4, lastBegin_append_writes c _ _ (fun e he => (h2 e he).1)]
    exact hr
  · cases o with
    | setSerial d =>
      exact ⟨d, rfl, lastBegin_append_begin d s.calls s.baudrate⟩
    | setBaudRate v =>
      refine ⟨c, by simp [Console.step, Console.setBaudRate, hc, Console.call], ?_⟩
      have : (s.step (Op.setBaudRate v)).calls = s.calls ++ [(c, SerialCall.begin v)] := by
        simp [Console.step, Console.setBaudRate, hc, Console.call]
      rw [this, lastBegin_append_begin]
      simp [Console.step, Console.setBaudRate, hc, Console.call]
    | format r => simp [Op.isOutput] at ho
    | vformat r => simp [Op.isOutput] at ho
    | flush p => simp [Op.isOutput] at ho
    | log r => simp [Op.isOutput] at ho
    | vlog r => simp [Op.isOutput] at ho

theorem AtRate_of_Reachable (s : Console) (h : Reachable s) : s.AtRate := by
  obtain ⟨rate, ops, rfl⟩ := h
  generalize hs : Console.construct rate = s0
  have h0 : s0.AtRate := hs ▸ AtRate_construct rate
  clear hs
  induction ops generalizing s0 with
  | nil => exact h0
  | cons o ops ih => exact ih _ (AtRate_step s0 o h0)

/-- What any call adds to the record of calls: the earlier calls stay in
front, and every write among the added calls goes to the device that was
set before the call, and the call leaves the rate as it was. -/
theorem step_calls (s : Console) (o : Op) :
    (s.step o).calls = s.calls ++ (s.step o).calls.drop s.calls.length
      ∧ (∀ e ∈ (s.step o).calls.drop s.calls.length, e.2.isWrite = true →
          s.serial = some e.1 ∧ (s.step o).baudrate = s.baudrate) := by
  by_cases ho : o.isOutput = true
  · obtain ⟨ws, h1, h2, h3, h4⟩ := output_step_calls s o ho
    rw [h1, List.drop_left]
    exact ⟨rfl, fun e he _ => ⟨(h2 e he).2, h4⟩⟩
  · cases o with
    | setSerial d =>
      have : (s.step (Op.setSerial d)).calls = s.calls ++ [(d, SerialCall.begin s.baudrate)] :=
        rfl
      rw [this, List.drop_left]
      exact ⟨rfl, by simp [SerialCall.isWrite]⟩
    | setBaudRate v =>
      cases hs : s.serial with
      | none =>
        have : (s.step (Op.setBaudRate v)).calls = s.calls := by
          simp [Console.step, Console.setBaudRate, hs]
        rw [this]
        simp
      | some c =>
        have : (s.step (Op.setBaudRate v)).calls = s.calls ++ [(c, SerialCall.begin v)] := by
          simp [Console.step, Console.setBaudRate, hs, Console.call]
        rw [this, List.drop_left]
        exact ⟨rfl, by simp [SerialCall.isWrite]⟩
    | format r => simp [Op.isOutput] at ho
    | vformat r => simp [Op.isOutput] at ho
    | flush p => simp [Op.isOutput] at ho
    | log r => simp [Op.isOutput] at ho
    | vlog r => simp [Op.isOutput] at ho

/-- C9: for every state `s` and device `d`, `setSerial(d)` makes `d` the
device and calls `d.begin` with the configured rate, as the last call so
far; `setBaudRate(v)` stores `v` and calls `begin(v)` on the device that is
set; both return the logger (the state returned).  For every reachable
state `u` and every call `o`: the calls made so far stay in front of those
`o` adds, and every write `o` makes goes to the device set in `u`, whose
last `begin` was at the rate configured in `u`, which `o` leaves as it is. -/
theorem C9_device_initialised_at_rate (s u : Console) (d : Dev) (v : Nat) (o : Op)
    (hu : Reachable u) :
    (s.setSerial d).serial = some d
    ∧ (s.setSerial d).calls = s.calls ++ [(d, SerialCall.begin s.baudrate)]
    ∧ (s.setSerial d).baudrate = s.baudrate
    ∧ (s.setBaudRate v).baudrate = v
    ∧ (s.setBaudRate v).serial = s.serial
    ∧ (∀ c, s.serial = some c →
        (s.setBaudRate v).calls = s.calls ++ [(c, SerialCall.begin v)])
    ∧ (∃ c, u.serial = some c ∧ lastBegin c u.calls = some u.baudrate)
    ∧ (u.step o).calls = u.calls ++ (u.step o).calls.drop u.calls.length
    ∧ (∀ e ∈ (u.step o).calls.drop u.calls.length, e.2.isWrite = true →
        u.serial = some e.1 ∧ lastBegin e.1 u.calls = some u.baudrate
          ∧ (u.step o).baudrate = u.baudrate) := by
  refine ⟨rfl, rfl, rfl, ?_, ?_, ?_, AtRate_of_Reachable u hu, (step_calls u o).1, ?_⟩
  · cases hs : s.serial <;> simp [Console.setBaudRate, hs, Console.call]
  · cases hs : s.serial <;> simp [Console.setBaudRate, hs, Console.call]
  · intro c hc
    simp [Console.setBaudRate, hc, Console.call]
  · intro e he hw
    obtain ⟨h1, h2⟩ := (step_calls u o).2 e he hw
    obtain ⟨c, hc, hr⟩ := AtRate_of_Reachable u hu
    have : e.1 = c := by
      rw [h1] at hc
      exact Option.some.inj hc
    exact ⟨h1, this ▸ hr, h2⟩

/-- C9 on the logger moved to device 1 and set to 9600: the `println` that
`log` of `hi` makes goes to device 1, last begun at 9600. -/
theorem C9_device_initialised_at_rate_witness :
    ((Console.construct SERIAL_BAUD_RATE).run [Op.setSerial 1, Op.setBaudRate 9600]).serial
      = some 1
    ∧ lastBegin 1
        ((Console.construct SERIAL_BAUD_RATE).run [Op.setSerial 1, Op.setBaudRate 9600]).calls
      = some 9600 :=
  ⟨((C9_device_initialised_at_rate (Console.construct SERIAL_BAUD_RATE)
      ((Console.construct SERIAL_BAUD_RATE).run [Op.setSerial 1, Op.setBaudRate 9600])
      1 9600 (Op.log ['h', 'i'])
      ⟨SERIAL_BAUD_RATE, [Op.setSerial 1, Op.setBaudRate 9600], rfl⟩).2.2.2.2.2.2.2.2
      (1, SerialCall.println ['h', 'i']) (by decide) rfl).1,
   ((C9_device_initialised_at_rate (Console.construct SERIAL_BAUD_RATE)
      ((Console.construct SERIAL_BAUD_RATE).run [Op.setSerial 1, Op.setBaudRate 9600])
      1 9600 (Op.log ['h', 'i'])
      ⟨SERIAL_BAUD_RATE, [Op.setSerial 1, Op.setBaudRate 9600], rfl⟩).2.2.2.2.2.2.2.2
      (1, SerialCall.println ['h', 'i']) (by decide) rfl).2.1⟩

end console

/-! ## The tagged macros -/

theorem Printf.render_append {α : Type} (P : Printf α) (t f : List Char) (a : α)
    (h : '%' ∉ t) : P.render (t ++ f) a = t ++ P.render f a := by
  induction t with
  | nil => rfl
  | cons c t ih =>
    simp only [List.mem_cons, not_or] at h
    rw [List.cons_append, P.ordinary c _ a (fun e => h.1 e.symm), ih h.2, List.cons_append]

theorem tag_ordinary (b : Build) (sev : Severity)
    (hmod : ∀ m, b.LOG_MODULE = some m → '%' ∉ m) :
    '%' ∉ _LOG_TAG b sev.letter ++ [' '] := by
  unfold _LOG_TAG
  cases hm : b.LOG_MODULE with
  | none => cases sev <;> decide
  | some m =>
    have := hmod m hm
    cases sev <;> simp [_LOG_TAG_2, Severity.letter, this]

theorem tag_no_NUL (b : Build) (sev : Severity)
    (hmod : ∀ m, b.LOG_MODULE = some m → NUL ∉ m) :
    NUL ∉ _LOG_TAG b sev.letter ++ [' '] := by
  unfold _LOG_TAG
  cases hm : b.LOG_MODULE with
  | none => cases sev <;> decide
  | some m =>
    have := hmod m hm
    have h1 : NUL ≠ '[' := by decide
    have h2 : NUL ≠ ']' := by decide
    have h3 : NUL ≠ ' ' := by decide
    have h4 : NUL ∉ sev.letter := by cases sev <;> decide
    simp [_LOG_TAG_2, this, h1, h2, h3, h4]

namespace console

/-- C10, as stated, fails: the tag is part of the format passed to `log`,
so it is rendered into the same buffer as the message.  `LOGE` of a message
of 92 letters (shorter than 95, so the claim has it sent whole after the
tag) sends the tag and the first 90 letters only. -/
theorem C10_tag_shares_the_buffer :
    printlns (LOGE Build.default miniPrintf (List.replicate 92 'a') []
        (Console.construct SERIAL_BAUD_RATE)).calls
      = [['[', 'E', ']', ' '] ++ List.replicate 90 'a']
    ∧ printlns (LOGE Build.default miniPrintf (List.replicate 92 'a') []
        (Console.construct SERIAL_BAUD_RATE)).calls
      ≠ [['[', 'E', ']', ' '] ++ (miniPrintf.render (List.replicate 92 'a') []).take 95] := by
  decide

/-- C10, amended: for every severity enabled at the compiled level, every
module setting (a name without `%` and `NUL`), every format and arguments
whose rendered message has no `NUL`, on a logger with a device set, the
macro makes exactly the calls `print("")`, `println(line)`, `flush()`, so
one line is sent, followed by the line terminator.  The prefix is `[S] `
without module name and `[S][MODULE] ` with one, and it is rendered into
the same buffer as the message: the line is the prefix followed by the
rendered message when the two together have at most 94 characters, and
otherwise the first 94 characters of the two together, so that the prefix
counts against what is left for the message. -/
theorem C10_tagged_line {α : Type} (b : Build) (sev : Severity) (P : Printf α)
    (fmt : List Char) (args : α) (s : Console) (d : Dev) (nl : List Char)
    (hen : b.enabled sev = true) (hd : s.serial = some d)
    (hmod : ∀ m, b.LOG_MODULE = some m → '%' ∉ m ∧ NUL ∉ m)
    (hnul : NUL ∉ P.render fmt args) :
    (LOGX b sev P fmt args s).calls = s.calls ++ [(d, SerialCall.print []),
        (d, SerialCall.println ((_LOG_TAG b sev.letter ++ [' '] ++ P.render fmt args).take 94)),
        (d, SerialCall.flush)]
    ∧ printlns ((LOGX b sev P fmt args s).calls.drop s.calls.length)
        = [(_LOG_TAG b sev.letter ++ [' '] ++ P.render fmt args).take 94]
    ∧ wire nl d ((LOGX b sev P fmt args s).calls.drop s.calls.length)
        = (_LOG_TAG b sev.letter ++ [' '] ++ P.render fmt args).take 94 ++ nl
    ∧ ((_LOG_TAG b sev.letter ++ [' ']).length + (P.render fmt args).length ≤ 94 →
        (_LOG_TAG b sev.letter ++ [' '] ++ P.render fmt args).take 94
          = _LOG_TAG b sev.letter ++ [' '] ++ P.render fmt args)
    ∧ (94 < (_LOG_TAG b sev.letter ++ [' ']).length + (P.render fmt args).length →
        ((_LOG_TAG b sev.letter ++ [' '] ++ P.render fmt args).take 94).length = 94)
    ∧ (b.LOG_MODULE = none → _LOG_TAG b sev.letter ++ [' '] = ['['] ++ sev.letter ++ [']', ' '])
    ∧ (∀ m, b.LOG_MODULE = some m →
        _LOG_TAG b sev.letter ++ [' '] = ['['] ++ sev.letter ++ [']', '['] ++ m ++ [']', ' ']) := by
  have hr : P.render (_LOG_TAG b sev.letter ++ [' '] ++ fmt) args
      = _LOG_TAG b sev.letter ++ [' '] ++ P.render fmt args :=
    P.render_append _ _ _ (tag_ordinary b sev (fun m hm => (hmod m hm).1))
  have hne : _LOG_TAG b sev.letter ++ [' '] ++ P.render fmt args ≠ [] := by simp
  have hn : NUL ∉ _LOG_TAG b sev.letter ++ [' '] ++ P.render fmt args := by
    rw [List.mem_append, not_or]
    exact ⟨tag_no_NUL b sev (fun m hm => (hmod m hm).2), hnul⟩
  have hcalls := log_calls_take s d _ hd hne hn
  have hx : (LOGX b sev P fmt args s).calls = s.calls ++ [(d, SerialCall.print []),
      (d, SerialCall.println ((_LOG_TAG b sev.letter ++ [' '] ++ P.render fmt args).take 94)),
      (d, SerialCall.flush)] := by
    unfold LOGX
    rw [if_pos hen, hr]
    exact hcalls
  refine ⟨hx, ?_, ?_, ?_, ?_, ?_, ?_⟩
  · rw [hx, List.drop_left]; rfl
  · rw [hx, List.drop_left]; simp [wire, SerialCall.text]
  · intro hlen
    exact List.take_of_length_le (by rw [List.length_append]; exact hlen)
  · intro hlen
    rw [List.length_take, List.length_append]
    omega
  · intro hm
    simp [_LOG_TAG, hm, _LOG_TAG_1]
  · intro m hm
    simp [_LOG_TAG, hm, _LOG_TAG_2]

/-- C10 at `LOGW("n=%d", 5)` in a build at the default level whose module
name is `NET`: the line `[W][NET] n=5` is sent. -/
theorem C10_tagged_line_witness :
    printlns ((LOGX { LOG_LEVEL := LOG_LEVEL_INFO, LOG_MODULE := some ['N', 'E', 'T'] }
        Severity.W miniPrintf ['n', '=', '%', 'd'] [5]
        (Console.construct SERIAL_BAUD_RATE)).calls.drop
          (Console.construct SERIAL_BAUD_RATE).calls.length)
      = [['[', 'W', ']', '[', 'N', 'E', 'T', ']', ' ', 'n', '=', '5']] :=
  (C10_tagged_line { LOG_LEVEL := LOG_LEVEL_INFO, LOG_MODULE := some ['N', 'E', 'T'] }
    Severity.W miniPrintf ['n', '=', '%', 'd'] [5] (Console.construct SERIAL_BAUD_RATE)
    Serial ['\r', '\n'] (by decide) (by decide) (by decide) (by decide)).2.1

end console

/-! ## The claims, continued -/

namespace console

theorem format_mBuffer_of_some (s : Console) (d : Dev) (r : List Char) (h : s.serial = some d) :
    (s.format r).mBuffer = vsnprintf s.mBuffer (strlen s.mBuffer) s.remaining r := by
  simp [Console.format, h, Console.remaining]

/-- Whatever the state, `format` keeps the text of the buffer in front. -/
theorem cstr_format_extends (s : Console) (r : List Char) :
    ∃ t, cstr (s.format r).mBuffer = cstr s.mBuffer ++ t := by
  cases hs : s.serial with
  | none => exact ⟨[], by rw [format_of_none s r hs, List.append_nil]⟩
  | some d =>
    rw [format_mBuffer_of_some s d r hs]
    by_cases hn : s.remaining = 0
    · exact ⟨[], by simp [vsnprintf, hn]⟩
    · exact ⟨_, cstr_vsnprintf_end _ _ _ (Nat.pos_of_ne_zero hn)⟩

/-- C11: the header documents `log` as `format()` followed by `flush()` in
one call.  Evaluated on a logger holding the unflushed text `ab`, with
rendered text `c`: `log` sends the line `c`, while `format` followed by
`flush` sends the line `abc`; the same in the legacy logger. -/
theorem C11_log_differs_from_format_then_flush :
    printlns (((Console.construct SERIAL_BAUD_RATE).format ['a', 'b']).log ['c']).calls
      = [['c']]
    ∧ printlns ((((Console.construct SERIAL_BAUD_RATE).format ['a', 'b']).format ['c']).flush
        []).calls = [['a', 'b', 'c']]
    ∧ printlns (((app.Console.construct 115200).format ['a', 'b']).log ['c']).calls
      = [['c']]
    ∧ printlns (((app.Console.construct 115200).format ['a', 'b']).format ['c']).flush.calls
      = [['a', 'b', 'c']] := by
  decide

/-- C12, as stated, fails when the format and arguments render to the empty
text: the buffer is empty before and empty after `format` and `vformat`. -/
theorem C12_empty_append_stays_empty :
    ¬ (cstr ((Console.construct SERIAL_BAUD_RATE).format []).mBuffer ≠ [])
    ∧ ¬ (cstr ((Console.construct SERIAL_BAUD_RATE).vformat []).mBuffer ≠ []) := by
  decide

/-- C12, amended: with a device set and an empty buffer, `format` and
`vformat` leave a non-empty buffer exactly when the rendered text of the
format and arguments is not empty as a C string, that is, it has a first
character and that character is not `NUL`; for a rendered text that is
empty or begins with `NUL` the buffer stays empty. -/
theorem C12_append_makes_pending (s : Console) (d : Dev) (r : List Char)
    (hd : s.serial = some d) (hb : cstr s.mBuffer = []) :
    (cstr (s.format r).mBuffer ≠ [] ↔ cstr r ≠ [])
    ∧ (cstr (s.vformat r).mBuffer ≠ [] ↔ cstr r ≠ [])
    ∧ (cstr r ≠ [] ↔ ∃ c r', r = c :: r' ∧ c ≠ NUL) := by
  have h0 : strlen s.mBuffer = 0 := (strlen_eq_zero_iff _).2 hb
  have key : cstr (s.format r).mBuffer ≠ [] ↔ cstr r ≠ [] := by
    rw [cstr_format s d r hd (by omega), hb, h0, List.nil_append]
    exact not_congr (cstr_take_succ_eq_nil_iff r 93)
  refine ⟨key, key, ?_⟩
  cases r with
  | nil => simp [cstr]
  | cons c r' =>
    by_cases hc : c = NUL
    · simp [cstr, hc]
    · simp [cstr, hc]

/-- C12 at `format` of the text `x` on the constructed logger. -/
theorem C12_append_makes_pending_witness :
    cstr ((Console.construct SERIAL_BAUD_RATE).format ['x']).mBuffer ≠ [] :=
  (C12_append_makes_pending (Console.construct SERIAL_BAUD_RATE) Serial ['x']
    (by decide) (by decide)).1.2 (by decide)

/-- C13: the macros of a severity are logger calls exactly when `LOG_LEVEL`
is at least the level of the severity (ERROR 1, WARNING 2, INFO 3, DEBUG 4,
VERBOSE 5) and leave the logger alone otherwise; a severity enabled at a
level is enabled at every higher level; at the default level E, W and I are
enabled, D and V are not. -/
theorem C13_level_gates_macros {α : Type} (b b' : Build) (sev : Severity) (P : Printf α)
    (fmt : List Char) (args : α) (s : Console) (hle : b.LOG_LEVEL ≤ b'.LOG_LEVEL) :
    (b.enabled sev = true ↔ b.LOG_LEVEL ≥ sev.level)
    ∧ (Severity.E.level = 1 ∧ Severity.W.level = 2 ∧ Severity.I.level = 3
        ∧ Severity.D.level = 4 ∧ Severity.V.level = 5)
    ∧ (b.LOG_LEVEL ≥ sev.level →
        LOGX b sev P fmt args s = s.log (P.render (_LOG_TAG b sev.letter ++ [' '] ++ fmt) args)
        ∧ LOGX_ADD b sev P fmt args s = s.format (P.render fmt args)
        ∧ LOGX_FLUSH b sev s = s.flush (_LOG_TAG b sev.letter ++ [' ']))
    ∧ (¬ b.LOG_LEVEL ≥ sev.level →
        LOGX b sev P fmt args s = s ∧ LOGX_ADD b sev P fmt args s = s
        ∧ LOGX_FLUSH b sev s = s)
    ∧ (b.enabled sev = true → b'.enabled sev = true)
    ∧ (Build.default.enabled Severity.E = true ∧ Build.default.enabled Severity.W = true
        ∧ Build.default.enabled Severity.I = true ∧ Build.default.enabled Severity.D = false
        ∧ Build.default.enabled Severity.V = false) := by
  refine ⟨by simp [Build.enabled], ⟨rfl, rfl, rfl, rfl, rfl⟩, ?_, ?_, ?_, by decide⟩
  · intro h
    have he : b.enabled sev = true := by simp [Build.enabled, h]
    simp [LOGX, LOGX_ADD, LOGX_FLUSH, he]
  · intro h
    have he : b.enabled sev = false := by simp [Build.enabled, h]
    simp [LOGX, LOGX_ADD, LOGX_FLUSH, he]
  · intro h
    simp only [Build.enabled, decide_eq_true_eq] at h ⊢
    omega

/-- C13 at the levels DEBUG and VERBOSE for the severity W, with
`LOGW("n=%d", 5)`. -/
theorem C13_level_gates_macros_witness :
    LOGX { LOG_LEVEL := LOG_LEVEL_DEBUG, LOG_MODULE := none } Severity.W miniPrintf
        ['n', '=', '%', 'd'] [5] (Console.construct SERIAL_BAUD_RATE)
      = (Console.construct SERIAL_BAUD_RATE).log (miniPrintf.render
          (_LOG_TAG { LOG_LEVEL := LOG_LEVEL_DEBUG, LOG_MODULE := none } Severity.W.letter
            ++ [' '] ++ ['n', '=', '%', 'd']) [5]) :=
  ((C13_level_gates_macros { LOG_LEVEL := LOG_LEVEL_DEBUG, LOG_MODULE := none }
    { LOG_LEVEL := LOG_LEVEL_VERBOSE, LOG_MODULE := none } Severity.W miniPrintf
    ['n', '=', '%', 'd'] [5] (Console.construct SERIAL_BAUD_RATE) (by decide)).2.2.1
    (by decide)).1

/-- C14: for every state and every format and arguments, `format` and
`vformat` make no call on any device, leave device and rate as they are,
and the text the buffer held is the beginning of the text it holds
afterwards. -/
theorem C14_append_extends_and_emits_nothing (s : Console) (r : List Char) :
    (s.format r).calls = s.calls
    ∧ (s.format r).serial = s.serial ∧ (s.format r).baudrate = s.baudrate
    ∧ (∃ t, cstr (s.format r).mBuffer = cstr s.mBuffer ++ t)
    ∧ (s.vformat r).calls = s.calls
    ∧ (s.vformat r).serial = s.serial ∧ (s.vformat r).baudrate = s.baudrate
    ∧ (∃ t, cstr (s.vformat r).mBuffer = cstr s.mBuffer ++ t) := by
  obtain ⟨f1, f2, f3⟩ := format_frame s r
  exact ⟨f1, f2, f3, cstr_format_extends s r, f1, f2, f3, cstr_format_extends s r⟩

end console

/-! ## Lines sent, and the legacy logger against the current one -/

theorem printlns_append (a b : List (Dev × SerialCall)) :
    printlns (a ++ b) = printlns a ++ printlns b := by
  induction a with
  | nil => rfl
  | cons e a ih =>
    obtain ⟨d, c⟩ := e
    cases c <;> simp [printlns, ih]

theorem expandLines_append (a b : List (Dev × SerialCall)) :
    expandLines (a ++ b) = expandLines a ++ expandLines b := by
  induction a with
  | nil => rfl
  | cons e a ih =>
    obtain ⟨d, c⟩ := e
    cases c <;> simp [expandLines, ih]

theorem printlns_expandLines (cs : List (Dev × SerialCall)) :
    printlns (expandLines cs) = printlns cs := by
  induction cs with
  | nil => rfl
  | cons e cs ih =>
    obtain ⟨d, c⟩ := e
    cases c <;> simp [expandLines, printlns, ih]

theorem wire_expandLines (nl : List Char) (d : Dev) (cs : List (Dev × SerialCall)) :
    wire nl d (expandLines cs) = wire nl d cs := by
  induction cs with
  | nil => rfl
  | cons e cs ih =>
    obtain ⟨d1, c⟩ := e
    cases c <;> simp [expandLines, wire, SerialCall.text, ih]

namespace console

theorem Inv_log_render (s : Console) (r : List Char) (h : s.Inv) :
    Console.Inv { s with mBuffer := vsnprintf s.mBuffer 0 95 r } := by
  obtain ⟨h1, h2, h3⟩ := h
  refine ⟨?_, ?_, h3⟩
  · show (vsnprintf s.mBuffer 0 95 r).length = BUFFER_SIZE
    rw [length_vsnprintf _ _ _ _ (by rw [h1]; unfold BUFFER_SIZE; omega)]
    exact h1
  · show strlen (vsnprintf s.mBuffer 0 95 r) ≤ 94
    rw [strlen_eq_length_cstr, cstr_vsnprintf_zero _ _ _ (by omega)]
    have := length_cstr_le (r.take (95 - 1))
    have := List.length_take_le (95 - 1) r
    omega

/-- A line `flush` sends is the text of the buffer. -/
theorem printlns_flush (s : Console) (p : List Char) :
    ∀ l ∈ printlns (s.flush p).calls, l ∈ printlns s.calls ∨ l = cstr s.mBuffer := by
  intro l hl
  cases hs : s.serial with
  | none =>
    rw [flush_of_none s p hs] at hl
    exact Or.inl hl
  | some d =>
    by_cases hb : 0 < strlen s.mBuffer
    · rw [flush_of_pending s d p hs hb] at hl
      simp only [printlns_append, List.mem_append] at hl
      rcases hl with hl | hl
      · exact Or.inl hl
      · right
        simpa [printlns] using hl
    · rw [flush_of_empty s p (by omega)] at hl
      exact Or.inl hl

theorem lines_step (s : Console) (o : Op) (hi : s.Inv)
    (hl : ∀ l ∈ printlns s.calls, l.length ≤ 94) :
    ∀ l ∈ printlns (s.step o).calls, l.length ≤ 94 := by
  have hbuf : ∀ u : Console, u.Inv → (cstr u.mBuffer).length ≤ 94 := by
    intro u hu
    rw [← strlen_eq_length_cstr]
    exact hu.2.1
  intro l hmem
  cases o with
  | setSerial d =>
    have : (s.step (Op.setSerial d)).calls = s.calls ++ [(d, SerialCall.begin s.baudrate)] :=
      rfl
    rw [this, printlns_append] at hmem
    simp only [printlns, List.append_nil] at hmem
    exact hl l hmem
  | setBaudRate v =>
    obtain ⟨c, hc⟩ := Option.ne_none_iff_exists'.1 hi.2.2
    have : (s.step (Op.setBaudRate v)).calls = s.calls ++ [(c, SerialCall.begin v)] := by
      simp [Console.step, Console.setBaudRate, hc, Console.call]
    rw [this, printlns_append] at hmem
    simp only [printlns, List.append_nil] at hmem
    exact hl l hmem
  | format r =>
    have : (s.step (Op.format r)).calls = s.calls := (format_frame s r).1
    rw [this] at hmem
    exact hl l hmem
  | vformat r =>
    have : (s.step (Op.vformat r)).calls = s.calls := (format_frame s r).1
    rw [this] at hmem
    exact hl l hmem
  | flush p =>
    rcases printlns_flush s p l hmem with h | h
    · exact hl l h
    · rw [h]; exact hbuf s hi
  | log r =>
    obtain ⟨c, hc⟩ := Option.ne_none_iff_exists'.1 hi.2.2
    have hstep : s.step (Op.log r)
        = Console.flush { s with mBuffer := vsnprintf s.mBuffer 0 95 r } [] :=
      log_of_some s c r hc
    rw [hstep] at hmem
    rcases printlns_flush _ _ l hmem with h | h
    · exact hl l h
    · rw [h]; exact hbuf _ (Inv_log_render s r hi)
  | vlog r =>
    have hstep : s.step (Op.vlog r) = (s.format r).flush [] := rfl
    rw [hstep] at hmem
    rcases printlns_flush _ _ l hmem with h | h
    · rw [(format_frame s r).1] at h
      exact hl l h
    · rw [h]; exact hbuf _ (Inv_format s r hi)

theorem lines_of_Reachable (s : Console) (h : Reachable s) :
    ∀ l ∈ printlns s.calls, l.length ≤ 94 := by
  obtain ⟨rate, ops, rfl⟩ := h
  have h0 : ∀ l ∈ printlns (Console.construct rate).calls, l.length ≤ 94 := by
    simp [Console.construct, Console.call, printlns]
  have hi := Inv_construct rate
  generalize Console.construct rate = s0 at h0 hi
  induction ops generalizing s0 with
  | nil => exact h0
  | cons o ops ih => exact ih _ (lines_step s0 o hi h0) (Inv_step s0 o hi)

end console

theorem Agrees_construct (rate : Nat) :
    (app.Console.construct rate).Agrees (console.Console.construct rate) :=
  ⟨rfl, rfl, rfl, rfl⟩

theorem legacy_flush_of_pending (t : app.Console) (d : Dev) (h : t.serial = some d)
    (hb : 0 < strlen t.mBuffer) :
    t.flush =
      { t with
        mBuffer := t.mBuffer.set 0 NUL,
        calls := t.calls ++ [(d, SerialCall.println (cstr t.mBuffer))] } := by
  simp [app.Console.flush, h, hb, app.Console.call]

theorem Agrees_flush (t : app.Console) (s : console.Console) (h : t.Agrees s) :
    t.flush.Agrees (s.flush []) := by
  obtain ⟨h1, h2, h3, h4⟩ := h
  cases hs : s.serial with
  | none =>
    have ht : t.serial = none := h1.trans hs
    rw [console.flush_of_none s [] hs]
    have : t.flush = t := by simp [app.Console.flush, ht]
    rw [this]
    exact ⟨h1, h2, h3, h4⟩
  | some d =>
    have ht : t.serial = some d := h1.trans hs
    by_cases hb : 0 < strlen s.mBuffer
    · rw [console.flush_of_pending s d [] hs hb,
        legacy_flush_of_pending t d ht (h3 ▸ hb)]
      refine ⟨h1, h2, ?_, ?_⟩
      · show t.mBuffer.set 0 NUL = s.mBuffer.set 0 NUL
        rw [h3]
      · show s.calls ++ _ = expandLines (t.calls ++ _)
        rw [expandLines_append, h4, h3]
        rfl
    · rw [console.flush_of_empty s [] (by omega)]
      rw [app.legacy_flush_of_empty t (by rw [h3]; omega)]
      exact ⟨h1, h2, h3, h4⟩

theorem Agrees_step (t : app.Console) (s : console.Console) (o : app.Op) (h : t.Agrees s) :
    (t.step o).Agrees (s.step o.toCurrent) := by
  obtain ⟨h1, h2, h3, h4⟩ := h
  cases o with
  | setSerial d =>
    exact ⟨rfl, h2, h3, by
      simp [app.Console.step, app.Op.toCurrent, console.Console.step, app.Console.setSerial,
        console.Console.setSerial, app.Console.call, console.Console.call, h2, h4,
        expandLines_append, expandLines]⟩
  | setBaudRate v =>
    cases hs : s.serial with
    | none =>
      have ht : t.serial = none := h1.trans hs
      refine ⟨?_, ?_, ?_, ?_⟩ <;>
        simp [app.Console.step, app.Op.toCurrent, console.Console.step,
          app.Console.setBaudRate, console.Console.setBaudRate, ht, hs, h3, h4]
    | some d =>
      have ht : t.serial = some d := h1.trans hs
      refine ⟨?_, ?_, ?_, ?_⟩ <;>
        simp [app.Console.step, app.Op.toCurrent, console.Console.step,
          app.Console.setBaudRate, console.Console.setBaudRate, ht, hs, h3, h4,
          app.Console.call, console.Console.call, expandLines_append, expandLines]
  | format r =>
    cases hs : s.serial with
    | none =>
      have ht : t.serial = none := h1.trans hs
      refine ⟨?_, ?_, ?_, ?_⟩ <;>
        simp [app.Console.step, app.Op.toCurrent, console.Console.step,
          app.Console.format, console.Console.format, ht, hs, h2, h3, h4]
    | some d =>
      have ht : t.serial = some d := h1.trans hs
      refine ⟨?_, ?_, ?_, ?_⟩ <;>
        simp [app.Console.step, app.Op.toCurrent, console.Console.step,
          app.Console.format, console.Console.format, ht, hs, h2, h3, h4,
          console.BUFFER_SIZE]
  | flush => exact Agrees_flush t s ⟨h1, h2, h3, h4⟩
  | log r =>
    cases hs : s.serial with
    | none =>
      have ht : t.serial = none := h1.trans hs
      refine ⟨?_, ?_, ?_, ?_⟩ <;>
        simp [app.Console.step, app.Op.toCurrent, console.Console.step,
          app.Console.log, console.Console.log, ht, hs, h2, h3, h4]
    | some d =>
      have ht : t.serial = some d := h1.trans hs
      have e1 : t.step (app.Op.log r)
          = app.Console.flush { t with mBuffer := vsnprintf t.mBuffer 0 95 r } := by
        simp [app.Console.step, app.Console.log, ht, sizeSub, SIZE_MOD]
      have e2 : s.step (app.Op.log r).toCurrent
          = console.Console.flush { s with mBuffer := vsnprintf s.mBuffer 0 95 r } [] :=
        console.log_of_some s d r hs
      rw [e1, e2]
      exact Agrees_flush _ _ ⟨h1, h2, by simp [h3], h4⟩

theorem Agrees_run (ops : List app.Op) (t : app.Console) (s : console.Console)
    (h : t.Agrees s) : (t.run ops).Agrees (s.run (ops.map app.Op.toCurrent)) := by
  induction ops generalizing t s with
  | nil => exact h
  | cons o ops ih => exact ih _ _ (Agrees_step t s o h)

namespace console

theorem Reachable_of_legacy_run (rate : Nat) (ops : List app.Op) :
    Reachable ((Console.construct rate).run (ops.map app.Op.toCurrent)) :=
  ⟨rate, ops.map app.Op.toCurrent, rfl⟩

theorem remaining_of_Inv (s : Console) (h : s.Inv) : s.remaining = 95 - strlen s.mBuffer :=
  remaining_eq _ (by have := h.2.1; omega)

/-- C15: in every state reachable from construction the buffer holds at
most 94 characters and every line sent so far carries at most 94
characters: `format` and `vformat` pass the bound `95 - length`, `log`
passes 95, and a bounded render stores one character less than its bound
before the terminator.  The same holds for the legacy logger after any
calls `lops` from construction. -/
theorem C15_buffer_holds_at_most_94 (s : Console) (rate : Nat) (lops : List app.Op)
    (r : List Char) (hs : Reachable s) :
    (cstr s.mBuffer).length ≤ 94
    ∧ (∀ l ∈ printlns s.calls, l.length ≤ 94)
    ∧ s.remaining = 95 - strlen s.mBuffer
    ∧ sizeSub BUFFER_SIZE 1 = 95
    ∧ strlen s.mBuffer + (r.take (s.remaining - 1)).length ≤ 94
    ∧ (cstr (s.format r).mBuffer).length ≤ 94
    ∧ (cstr (s.vformat r).mBuffer).length ≤ 94
    ∧ (cstr (vsnprintf s.mBuffer 0 (sizeSub BUFFER_SIZE 1) r)).length ≤ 94
    ∧ (cstr ((app.Console.construct rate).run lops).mBuffer).length ≤ 94
    ∧ (∀ l ∈ printlns ((app.Console.construct rate).run lops).calls, l.length ≤ 94) := by
  have hi := Inv_of_Reachable s hs
  have hlen : ∀ u : Console, u.Inv → (cstr u.mBuffer).length ≤ 94 := by
    intro u hu
    rw [← strlen_eq_length_cstr]
    exact hu.2.1
  have hrem := remaining_of_Inv s hi
  obtain ⟨a1, a2, a3, a4⟩ := Agrees_run lops _ _ (Agrees_construct rate)
  have hr' := Reachable_of_legacy_run rate lops
  refine ⟨hlen s hi, lines_of_Reachable s hs, hrem, log_bound_eq, ?_, hlen _ (Inv_format s r hi),
    hlen _ (Inv_format s r hi), ?_, ?_, ?_⟩
  · have := List.length_take_le (s.remaining - 1) r
    have := hi.2.1
    omega
  · rw [log_bound_eq]
    exact hlen _ (Inv_log_render s r hi)
  · rw [a3]
    exact hlen _ (Inv_of_Reachable _ hr')
  · rw [← printlns_expandLines, ← a4]
    exact lines_of_Reachable _ hr'

/-- C15 after appends of 60 and 60 letters, and for the legacy logger after
a `log` of 120 letters. -/
theorem C15_buffer_holds_at_most_94_witness :
    (cstr ((Console.construct SERIAL_BAUD_RATE).run
        [Op.format (List.replicate 60 'a'), Op.vformat (List.replicate 60 'b')]).mBuffer).length
      ≤ 94
    ∧ (∀ l ∈ printlns ((app.Console.construct 115200).run
        [app.Op.log (List.replicate 120 'c')]).calls, l.length ≤ 94) :=
  ⟨(C15_buffer_holds_at_most_94 _ 115200 [app.Op.log (List.replicate 120 'c')] ['x']
      ⟨SERIAL_BAUD_RATE,
        [Op.format (List.replicate 60 'a'), Op.vformat (List.replicate 60 'b')], rfl⟩).1,
   (C15_buffer_holds_at_most_94 _ 115200 [app.Op.log (List.replicate 120 'c')] ['x']
      ⟨SERIAL_BAUD_RATE,
        [Op.format (List.replicate 60 'a'), Op.vformat (List.replicate 60 'b')],
        rfl⟩).2.2.2.2.2.2.2.2.2⟩

/-- C16: in every reachable state the value `remaining` that `format` and
`vformat` compute in `size_t` equals the integer `96 - length - 1` (no
wrap-around), is at least 1, and offset plus `remaining` is at most 95; the
characters stored, terminator included, end inside the 96-byte buffer, which
keeps its size. -/
theorem C16_remaining_stays_in_buffer (s : Console) (r : List Char) (hs : Reachable s) :
    (s.remaining : Int) = (BUFFER_SIZE : Int) - (strlen s.mBuffer : Int) - 1
    ∧ 1 ≤ s.remaining
    ∧ strlen s.mBuffer + s.remaining ≤ 95
    ∧ (s.format r).mBuffer = vsnprintf s.mBuffer (strlen s.mBuffer) s.remaining r
    ∧ (s.vformat r).mBuffer = vsnprintf s.mBuffer (strlen s.mBuffer) s.remaining r
    ∧ strlen s.mBuffer + (r.take (s.remaining - 1) ++ [NUL]).length ≤ BUFFER_SIZE
    ∧ (s.format r).mBuffer.length = BUFFER_SIZE
    ∧ (s.vformat r).mBuffer.length = BUFFER_SIZE := by
  have hi := Inv_of_Reachable s hs
  have hrem := remaining_of_Inv s hi
  have h2 := hi.2.1
  obtain ⟨d, hd⟩ := Option.ne_none_iff_exists'.1 hi.2.2
  have hf := format_mBuffer_of_some s d r hd
  refine ⟨?_, by omega, by omega, hf, hf, ?_, (Inv_format s r hi).1, (Inv_format s r hi).1⟩
  · rw [hrem]
    unfold BUFFER_SIZE
    omega
  · have := List.length_take_le (s.remaining - 1) r
    simp only [List.length_append, List.length_cons, List.length_nil]
    unfold BUFFER_SIZE
    omega

/-- C16 on the state reached by a `format` of 200 letters. -/
theorem C16_remaining_stays_in_buffer_witness :
    1 ≤ ((Console.construct SERIAL_BAUD_RATE).run
        [Op.format (List.replicate 200 'a')]).remaining
    ∧ strlen ((Console.construct SERIAL_BAUD_RATE).run
        [Op.format (List.replicate 200 'a')]).mBuffer
      + ((Console.construct SERIAL_BAUD_RATE).run
        [Op.format (List.replicate 200 'a')]).remaining ≤ 95 :=
  ⟨(C16_remaining_stays_in_buffer _ ['x']
      ⟨SERIAL_BAUD_RATE, [Op.format (List.replicate 200 'a')], rfl⟩).2.1,
   (C16_remaining_stays_in_buffer _ ['x']
      ⟨SERIAL_BAUD_RATE, [Op.format (List.replicate 200 'a')], rfl⟩).2.2.1⟩

end console

namespace console

/-- C18: with a device set, `log` of a format and arguments that render to
the empty text makes no call on any device (no `print`, no `println`, no
`flush`), and the buffer is empty afterwards whatever it held; device and
rate are unchanged. -/
theorem C18_log_of_empty_text_is_silent (s : Console) (d : Dev) (r : List Char)
    (hd : s.serial = some d) (hr : r = []) :
    (s.log r).calls = s.calls
    ∧ cstr (s.log r).mBuffer = []
    ∧ (s.log r).serial = s.serial ∧ (s.log r).baudrate = s.baudrate := by
  subst hr
  have h0 : strlen (vsnprintf s.mBuffer 0 95 []) = 0 := by
    rw [strlen_eq_length_cstr, cstr_vsnprintf_zero _ _ _ (by omega)]
    rfl
  have hlog : s.log [] = { s with mBuffer := vsnprintf s.mBuffer 0 95 [] } := by
    rw [log_of_some s d [] hd]
    exact flush_of_empty _ [] h0
  rw [hlog]
  exact ⟨rfl, (strlen_eq_zero_iff _).1 h0, rfl, rfl⟩

/-- C18 on a logger that holds the unflushed text `old`. -/
theorem C18_log_of_empty_text_is_silent_witness :
    (((Console.construct SERIAL_BAUD_RATE).format ['o', 'l', 'd']).log []).calls
      = ((Console.construct SERIAL_BAUD_RATE).format ['o', 'l', 'd']).calls
    ∧ cstr (((Console.construct SERIAL_BAUD_RATE).format ['o', 'l', 'd']).log []).mBuffer = [] :=
  ⟨(C18_log_of_empty_text_is_silent ((Console.construct SERIAL_BAUD_RATE).format ['o', 'l', 'd'])
      Serial [] (by decide) rfl).1,
   (C18_log_of_empty_text_is_silent ((Console.construct SERIAL_BAUD_RATE).format ['o', 'l', 'd'])
      Serial [] (by decide) rfl).2.1⟩

/-- C19: for every sequence `ops` of `setSerial`, `setBaudRate`, `format`,
`flush` and `log` calls from construction (at the same default rate), the
legacy logger and the current logger, whose `flush` is called without
argument, end with the same device, rate and buffer; the calls of the
current logger are those of the legacy logger with a `print` of the empty
prefix before, and a `flush` of the device after, each `println`; so both
send the same lines and put the same characters on every wire. -/
theorem C19_legacy_and_current_agree (rate : Nat) (ops : List app.Op) (nl : List Char)
    (d : Dev) :
    ((app.Console.construct rate).run ops).mBuffer
      = ((Console.construct rate).run (ops.map app.Op.toCurrent)).mBuffer
    ∧ ((app.Console.construct rate).run ops).serial
      = ((Console.construct rate).run (ops.map app.Op.toCurrent)).serial
    ∧ ((app.Console.construct rate).run ops).baudrate
      = ((Console.construct rate).run (ops.map app.Op.toCurrent)).baudrate
    ∧ ((Console.construct rate).run (ops.map app.Op.toCurrent)).calls
      = expandLines ((app.Console.construct rate).run ops).calls
    ∧ printlns ((app.Console.construct rate).run ops).calls
      = printlns ((Console.construct rate).run (ops.map app.Op.toCurrent)).calls
    ∧ wire nl d ((app.Console.construct rate).run ops).calls
      = wire nl d ((Console.construct rate).run (ops.map app.Op.toCurrent)).calls := by
  obtain ⟨a1, a2, a3, a4⟩ := Agrees_run ops _ _ (Agrees_construct rate)
  refine ⟨a3, a1, a2, a4, ?_, ?_⟩
  · rw [a4, printlns_expandLines]
  · rw [a4, wire_expandLines]

end console
